import Mathlib

/-!
Shallow embedding of the post lifecycle pipeline of the `fat-controller`
Nostr post scheduler: the proof-of-work miner (`pow.service.ts`), the
signing queue (`signing-queue.service.ts`), the scheduler
(`scheduler.ts`), the publisher (`publisher.ts` / `nostr.service.ts`)
and the database layer (`database/db.ts`).

External collaborators (the sqlite store, the NDK relay library, the
`nostrmq` transport, `fetch`, the OS keychain, `nip19.decode`, and the
sha256 event hash) are modelled as explicit state (`Db`) and as
environment functions (`Env`).  JavaScript truthiness on optional string
fields is modelled by `jsTruthy` (absent and empty string are falsy).

The database layer in `database/db.ts` predates the signing pipeline: it
lacks `getPendingSignedPosts`, `getPostsReadyForSigning`, `markAsSigning`
and `markAsSigned`, which the scheduler and signing queue call.  Those
four accessors are modelled from the spec (§4.2, §6) and are marked
`Modelled from the spec:` below.  Everything else is translated from the
TypeScript source.
-/

/-- Post lifecycle status. `pending`, `published`, `failed` appear in the
`db.ts` CHECK constraint; `signing` and `signed` are the pre-signing
pipeline states of spec §4.2 used by `scheduler.ts` / the signing queue. -/
inductive Status
  | pending
  | signing
  | signed
  | published
  | failed
deriving DecidableEq, Repr

/-- Status names as stored in the database, used in error messages. -/
def statusText : Status → String
  | .pending => "pending"
  | .signing => "signing"
  | .signed => "signed"
  | .published => "published"
  | .failed => "failed"

/-- Delivery channel: `publish_method TEXT CHECK(publish_method IN ('api','nostrmq','direct'))`. -/
inductive Method
  | api
  | nostrmq
  | direct
deriving DecidableEq, Repr

/-- The part of a Nostr event that `getEventHash` serialises:
`[0, pubkey, created_at, kind, tags, content]` (the `id` and `sig`
fields are not part of the hashed payload). -/
structure EventCore where
  pubkey : Option String
  created_at : Nat
  kind : Nat
  tags : List (List String)
  content : String
deriving DecidableEq, Repr

/-- A (possibly signed) Nostr event as the pipeline passes it around. -/
structure NostrEvent where
  kind : Nat
  content : String
  tags : List (List String)
  created_at : Nat
  pubkey : Option String
  id : Option String
  sig : Option String
deriving DecidableEq, Repr

/-- The hashed serialisation of an event. -/
def NostrEvent.core (e : NostrEvent) : EventCore :=
  ⟨e.pubkey, e.created_at, e.kind, e.tags, e.content⟩

/-- The `signed_event` column holds JSON text; `scheduler.ts` parses it
with `JSON.parse`, which either yields an event object or throws. -/
inductive StoredSignedEvent
  | valid (e : NostrEvent)
  | invalid (raw : String)
deriving DecidableEq, Repr

/-- A row of the `posts` table joined with its note's content
(`SELECT p.*, n.content FROM posts p JOIN notes n ...`). -/
structure Post where
  id : Nat
  note_id : Nat
  scheduled_for : Nat
  published_at : Option Nat
  status : Status
  error_message : Option String
  event_id : Option String
  primal_url : Option String
  api_endpoint : Option String
  account_id : Option Nat
  publish_method : Option Method
  signed_event : Option StoredSignedEvent
  content : String
deriving DecidableEq, Repr

/-- A row of the `nostr_accounts` table. -/
structure Account where
  id : Nat
  name : String
  npub : String
  nsec : Option String
  keychain_ref : Option String
  api_endpoint : Option String
  publish_method : Method
  nostrmq_target : Option String
  relays : Option String
  is_active : Bool
deriving DecidableEq, Repr

/-- JavaScript truthiness of an optional string value: `undefined`/`null`
and the empty string are falsy (`if (value) ...`). -/
def jsTruthy : Option String → Bool
  | none => false
  | some s => !(s == "")

/-- `account.relays?.split(',').map(r => r.trim()).filter(r => r)`. -/
def splitRelays : Option String → Option (List String)
  | none => none
  | some s => some (((s.splitOn ",").map String.trim).filter (fun r => !(r == "")))

/-- The built-in relay list of `nostr.service.ts`. -/
def DEFAULT_RELAYS : List String :=
  ["wss://relay.damus.io", "wss://nos.lol", "wss://relay.nostr.band",
   "wss://nostr.wine", "wss://relayable.org", "wss://relay.primal.net"]

/-- `relayUrls && relayUrls.length > 0 ? relayUrls : DEFAULT_RELAYS`. -/
def selectRelays : Option (List String) → List String
  | some rs => if rs.isEmpty then DEFAULT_RELAYS else rs
  | none => DEFAULT_RELAYS

/-- `buildTextNote` of `nostr.service.ts`: a kind-1 note with empty tags
and the current unix timestamp. -/
def buildTextNote (now : Nat) (content : String) : NostrEvent :=
  { kind := 1, content := content, tags := [], created_at := now,
    pubkey := none, id := none, sig := none }

/-! ### Proof-of-work miner (`pow.service.ts`) -/

/-- `parseInt(c, 16)` on a single character: its hex value, or `none`
for JavaScript's `NaN`. -/
def hexDigitVal (c : Char) : Option Nat :=
  if 48 ≤ c.toNat ∧ c.toNat ≤ 57 then some (c.toNat - 48)
  else if 97 ≤ c.toNat ∧ c.toNat ≤ 102 then some (c.toNat - 87)
  else if 65 ≤ c.toNat ∧ c.toNat ≤ 70 then some (c.toNat - 55)
  else none

/-- `id.startsWith("0".repeat(n))`. -/
def startsWithZeros (id : String) (n : Nat) : Bool :=
  id.data.take n == List.replicate n '0'

/-- `hashMatchesDifficulty` of `pow.service.ts`: a byte-aligned count of
zero hex digits, then a mask of the next nibble's high bits.  A missing
or non-hex character at the partial-nibble position gives `parseInt`'s
`NaN`, and `NaN >> k === 0` in JavaScript, so the check passes there. -/
def hashMatchesDifficulty (id : String) (bits : Nat) : Bool :=
  let requiredHexZeros := bits / 4
  if !(startsWithZeros id requiredHexZeros) then false
  else if bits % 4 = 0 then true
  else
    match id.data.get? requiredHexZeros with
    | none => true
    | some c =>
      match hexDigitVal c with
      | none => true
      | some nibble => nibble >>> (4 - bits % 4) == 0

/-- An abstract content hash (`getEventHash` of `nostr-tools`, a sha256
of the canonical serialisation). -/
def HashFn : Type := EventCore → String

/-- One attempt of the worker loop: rebuild the tags from the serialised
event plus a `["nonce", nonce, difficulty]` tag, then recompute the id. -/
def mineAttempt (hash : HashFn) (serialised : NostrEvent) (difficulty nonce : Nat) : NostrEvent :=
  let withNonce :=
    { serialised with tags := serialised.tags ++ [["nonce", toString nonce, toString difficulty]] }
  { withNonce with id := some (hash withNonce.core) }

/-- The worker's `while (true)` nonce search.  The source runs without a
timeout; the embedding carries explicit fuel and returns `none` when the
fuel runs out (a search still in progress). -/
def mineLoop (hash : HashFn) (serialised : NostrEvent) (difficulty : Nat) :
    Nat → Nat → Option NostrEvent
  | 0, _ => none
  | fuel + 1, nonce =>
    let mined := mineAttempt hash serialised difficulty nonce
    if hashMatchesDifficulty (mined.id.getD "") difficulty then some mined
    else mineLoop hash serialised difficulty fuel (nonce + 1)

/-- `mineEventPow(evt, difficulty)`: run the worker from nonce 0. -/
def mineEventPow (hash : HashFn) (fuel : Nat) (evt : NostrEvent) (difficulty : Nat) :
    Option NostrEvent :=
  mineLoop hash evt difficulty fuel 0

/-- Leading zero bits of the value of one hex digit. -/
def nibbleLeadingZeros (v : Nat) : Nat :=
  if 8 ≤ v then 0 else if 4 ≤ v then 1 else if 2 ≤ v then 2 else if 1 ≤ v then 3 else 4

/-- Leading zero bits of a hex string read as a big-endian bit string
(specification-side definition, used to state what the difficulty check
means). -/
def hexLeadingZeroBitsAux : List Char → Nat
  | [] => 0
  | c :: rest =>
    match hexDigitVal c with
    | none => 0
    | some v => if v = 0 then 4 + hexLeadingZeroBitsAux rest else nibbleLeadingZeros v

/-- Leading zero bits of a hex string. -/
def leadingZeroBits (s : String) : Nat :=
  hexLeadingZeroBitsAux s.data

/-! ### Database layer (`database/db.ts`) -/

/-- The persistent store: the `posts` view (joined with note content)
and the `nostr_accounts` table. -/
structure Db where
  posts : List Post
  accounts : List Account
deriving DecidableEq, Repr

/-- `getAccount(id)`. -/
def Db.getAccount (db : Db) (id : Nat) : Option Account :=
  db.accounts.find? (fun a => decide (a.id = id))

/-- `getActiveAccount()`. -/
def Db.getActiveAccount (db : Db) : Option Account :=
  db.accounts.find? (fun a => a.is_active)

/-- `getPost(id)`. -/
def Db.getPost (db : Db) (id : Nat) : Option Post :=
  db.posts.find? (fun p => decide (p.id = id))

/-- `getPendingPosts()`: pending posts whose due time has arrived. -/
def Db.getPendingPosts (db : Db) (now : Nat) : List Post :=
  db.posts.filter (fun p => decide (p.status = .pending ∧ p.scheduled_for ≤ now))

/-- Modelled from the spec: `getPendingSignedPosts()` is called by
`scheduler.ts` but missing from the `db.ts` snapshot.  Spec §4.3: fetch
`signed` posts whose due time has passed. -/
def Db.getPendingSignedPosts (db : Db) (now : Nat) : List Post :=
  db.posts.filter (fun p => decide (p.status = .signed ∧ p.scheduled_for ≤ now))

/-- Modelled from the spec: `getPostsReadyForSigning()` is called by the
signing queue but missing from the `db.ts` snapshot.  Spec §4.2: fetch
posts in `pending` awaiting signature. -/
def Db.getPostsReadyForSigning (db : Db) : List Post :=
  db.posts.filter (fun p => decide (p.status = .pending))

/-- Update the post with the given id (an `UPDATE posts ... WHERE id = ?`). -/
def setPost (ps : List Post) (id : Nat) (f : Post → Post) : List Post :=
  ps.map (fun p => if p.id = id then f p else p)

/-- Field update of `markAsPublished`: status and published timestamp. -/
def markAsPublishedF (now : Nat) (q : Post) : Post :=
  { q with status := .published, published_at := some now }

/-- Field update of `markAsFailed`: status and error message. -/
def markAsFailedF (msg : String) (q : Post) : Post :=
  { q with status := .failed, error_message := some msg }

/-- Field update of `updatePostEventDetails`: event id and permalink. -/
def updateEventDetailsF (eventId : String) (q : Post) : Post :=
  { q with event_id := some eventId,
           primal_url := some ("https://primal.net/e/" ++ eventId) }

/-- Modelled from the spec: field update of `markAsSigning` (spec §4.2,
claimed-by-a-worker-pass state), missing from the `db.ts` snapshot. -/
def markAsSigningF (q : Post) : Post :=
  { q with status := .signing }

/-- Modelled from the spec: field update of `markAsSigned` (spec §4.2,
payload stored, awaiting the Scheduler), missing from the `db.ts`
snapshot. -/
def markAsSignedF (ev : NostrEvent) (q : Post) : Post :=
  { q with status := .signed, signed_event := some (.valid ev) }

/-- `markAsPublished(id)`. -/
def Db.markAsPublished (db : Db) (now : Nat) (id : Nat) : Db :=
  { db with posts := setPost db.posts id (markAsPublishedF now) }

/-- `markAsFailed(id, errorMessage)`. -/
def Db.markAsFailed (db : Db) (id : Nat) (msg : String) : Db :=
  { db with posts := setPost db.posts id (markAsFailedF msg) }

/-- `updatePostEventDetails(postId, eventId)`. -/
def Db.updatePostEventDetails (db : Db) (id : Nat) (eventId : String) : Db :=
  { db with posts := setPost db.posts id (updateEventDetailsF eventId) }

/-- Modelled from the spec: `markAsSigning(id)` (see `markAsSigningF`). -/
def Db.markAsSigning (db : Db) (id : Nat) : Db :=
  { db with posts := setPost db.posts id markAsSigningF }

/-- Modelled from the spec: `markAsSigned(id, signedEventData)` (see
`markAsSignedF`). -/
def Db.markAsSigned (db : Db) (id : Nat) (ev : NostrEvent) : Db :=
  { db with posts := setPost db.posts id (markAsSignedF ev) }

/-! ### Environment: network, crypto and keychain collaborators -/

/-- What `JSON.parse(responseText)` yielded: an object (with the event-id
fields the extractor probes, as optional string values), a JSON string,
some other JSON value, or a parse failure. -/
inductive Body
  | obj (eventId event_id id : Option String)
  | str (s : String)
  | other
  | notJson
deriving DecidableEq, Repr

/-- An HTTP response as seen by the publisher: status code, raw body
text, and the result of parsing the body as JSON. -/
structure HttpResponse where
  status : Nat
  text : String
  parsed : Body
deriving DecidableEq, Repr

/-- `response.ok`: status in the 2xx range. -/
def responseOk (status : Nat) : Bool :=
  decide (200 ≤ status ∧ status < 300)

/-- External collaborators: HTTP endpoints, the NostrMQ transport, relay
acknowledgements, signing, hashing, the OS keychain and `nip19.decode`. -/
structure Env where
  http : String → Except String HttpResponse
  mqSend : String → Except String String
  relayAccepts : String → Bool
  publishTimesOut : Bool
  connectFails : Bool
  legacyPublishError : Option String
  signEvent : NostrEvent → String → Except String NostrEvent
  hash : HashFn
  mineFuel : Nat
  keychain : Nat → Option String
  decodeNsec : String → Option String

/-- Environment-style configuration (spec §6): clock, default endpoint,
`NOSTR_NPUB`, and `POW_BITS`. -/
structure Config where
  now : Nat
  nostrApiEndpoint : Option String
  nostrNpub : Option String
  powBits : Option Nat

/-! ### Publisher: direct relay channel (`nostr.service.ts`) -/

/-- Result of a relay publish: the event id and the relay URLs that
acknowledged the event. -/
structure RelayPublishResult where
  id : Option String
  relays : List String
deriving DecidableEq, Repr

/-- `publishSignedEventToRelays` of `nostr.service.ts`.  Connection
errors are caught and logged ("Attempting to publish with partial
connections"), and publish errors or the 8-second overall timeout are
caught as well ("Don't throw - we'll return what we have"), so the call
always returns `{ id: event.id || signedEventData.id, relays }` with the
possibly empty list of acknowledging relays. -/
def publishSignedEventToRelays (env : Env) (signedEventData : NostrEvent)
    (relayUrls : Option (List String)) : RelayPublishResult :=
  let selected := selectRelays relayUrls
  let publishedRelayUrls :=
    if env.publishTimesOut then [] else selected.filter env.relayAccepts
  { id := signedEventData.id, relays := publishedRelayUrls }

/-- `publishTextNote` of `nostr.service.ts` (the legacy sign-at-publish
path): connect, sign, optionally mine and re-sign, then publish.  Unlike
the pre-signed path, a publish error here propagates to the caller. -/
def publishTextNote (cfg : Config) (env : Env) (content : String) (nsec : String)
    (relayUrls : Option (List String)) (powDifficulty : Nat) :
    Except String RelayPublishResult :=
  match env.decodeNsec nsec with
  | none => .error "Failed to decode nsec"
  | some privhex =>
    if env.connectFails then .error "Failed to connect to Nostr relays"
    else
      match env.signEvent (buildTextNote cfg.now content) privhex with
      | .error e => .error e
      | .ok event =>
        let minedEvent : Except String NostrEvent :=
          if powDifficulty > 0 then
            match mineEventPow env.hash env.mineFuel event powDifficulty with
            | some minedRaw => env.signEvent minedRaw privhex
            | none => .error "Proof-of-work mining worker failed"
          else .ok event
        match minedEvent with
        | .error e => .error e
        | .ok finalEvent =>
          match env.legacyPublishError with
          | some e => .error e
          | none =>
            let selected := selectRelays relayUrls
            .ok { id := finalEvent.id, relays := selected.filter env.relayAccepts }

/-! ### Publisher: legacy multi-channel dispatch (`publisher.ts`) -/

/-- `publishToNostr` of `publisher.ts` after its post lookup, with the
looked-up post passed in (`post?`) and whether a post id was supplied
(`postIdGiven`).  The function resolves npub/nsec/relays/method/endpoint
/target from the post's account, falls back to the active account and
then to `NOSTR_NPUB`, and dispatches on the channel.  Its declared type
is `Promise<void>`: no event id is ever returned. -/
def publishToNostrResolved (cfg : Config) (env : Env) (accts : List Account)
    (post? : Option Post) (content : String) (apiEndpoint : Option String)
    (postIdGiven : Bool) : Except String Unit :=
  let endpoint0 : String :=
    (apiEndpoint <|> cfg.nostrApiEndpoint).getD "http://localhost:3000/post/note"
  let postMethod : Option Method := post?.bind (fun p => p.publish_method)
  let acct? : Option Account :=
    post?.bind (fun p => p.account_id.bind
      (fun aid => accts.find? (fun a => decide (a.id = aid))))
  -- values after the post/account block (publishMethod starts as 'api')
  let pmA : Method :=
    match acct? with
    | some a => (postMethod.getD a.publish_method)
    | none => postMethod.getD .api
  let endpointA : String :=
    match acct? with
    | some a => a.api_endpoint.getD endpoint0
    | none => endpoint0
  let targetA : Option String := acct?.bind (fun a => a.nostrmq_target)
  -- active-account fallback, taken only when npub is still unset
  let active? : Option Account := accts.find? (fun a => a.is_active)
  let useActive : Bool := acct?.isNone && active?.isSome
  let npub : Option String :=
    (acct?.map (fun a => a.npub)) <|> (if acct?.isNone then active?.map (fun a => a.npub) else none)
      <|> (if acct?.isNone && active?.isNone then cfg.nostrNpub else none)
  let nsec : Option String :=
    match acct? with
    | some a => a.nsec
    | none => if useActive then active?.bind (fun a => a.nsec) else none
  let relays : Option (List String) :=
    match acct? with
    | some a => splitRelays a.relays
    | none => if useActive then active?.bind (fun a => splitRelays a.relays) else none
  let publishMethod : Method :=
    if useActive then
      (if pmA = .api ∧ !postIdGiven then (active?.map (fun a => a.publish_method)).getD pmA else pmA)
    else pmA
  let endpoint : String :=
    if useActive then ((active?.bind (fun a => a.api_endpoint)).getD endpointA) else endpointA
  let nostrmqTarget : Option String :=
    if useActive then active?.bind (fun a => a.nostrmq_target) else targetA
  match npub with
  | none => .error "No NPUB found in accounts or environment variables"
  | some _ =>
    match publishMethod with
    | .direct =>
      let accountId? : Option Nat :=
        (post?.bind (fun p => p.account_id)) <|> (active?.map (fun a => a.id))
      let keychainNsec : Option String := accountId?.bind env.keychain
      let finalNsec : Option String :=
        if jsTruthy keychainNsec then keychainNsec else nsec
      match finalNsec with
      | none => .error "No private key (nsec) found for direct publishing"
      | some k =>
        let pow := cfg.powBits.getD 20
        match publishTextNote cfg env content k relays pow with
        | .ok _ => .ok ()
        | .error e => .error e
    | .nostrmq =>
      match nostrmqTarget with
      | none => .error "NostrMQ target not set for NostrMQ publishing method"
      | some t =>
        match env.mqSend t with
        | .ok _ => .ok ()
        | .error e => .error e
    | .api =>
      match env.http endpoint with
      | .error e => .error e
      | .ok response =>
        if !(responseOk response.status) then
          .error ("Failed to publish: " ++ toString response.status ++ " - " ++ response.text)
        else .ok ()

/-- `publishToNostr(content, apiEndpoint, postId)`: look the post up in
the store, then dispatch.  Resolves to `undefined` on success
(`Promise<void>`). -/
def publishToNostr (cfg : Config) (env : Env) (db : Db) (content : String)
    (apiEndpoint : Option String) (postId : Option Nat) : Except String Unit :=
  publishToNostrResolved cfg env db.accounts (postId.bind db.getPost)
    content apiEndpoint postId.isSome

/-! ### Scheduler (`scheduler.ts`) -/

/-- The ordered event-id extraction of the API branch of
`publishPreSignedEvent`: `result.eventId`, `result.event_id`,
`result.id`, then a bare 64-character string (as a JSON string value or,
when the body is not JSON, as the raw text). -/
def extractEventId : Body → String → Option String
  | .obj e e' i, _ =>
    if jsTruthy e then e else if jsTruthy e' then e' else if jsTruthy i then i else none
  | .str s, _ => if s.length = 64 then some s else none
  | .other, _ => none
  | .notJson, raw => if raw.length = 64 then some raw else none

/-- `publishPreSignedEvent(post)` of `scheduler.ts`: parse the stored
signed event, resolve endpoint/method/target from the post and its
account, and dispatch on the channel; returns
`eventId || signedEventData.id`.  The source reads only the accounts
table here (it opens a fresh database handle), so the embedding takes
the accounts list. -/
def publishPreSignedEvent (cfg : Config) (env : Env) (accts : List Account)
    (post : Post) : Except String (Option String) :=
  match post.signed_event with
  | none => .error "Post does not have a pre-signed event"
  | some (.invalid _) => .error "Invalid signed event JSON data"
  | some (.valid signedEventData) =>
    let endpoint0 : String :=
      (post.api_endpoint <|> cfg.nostrApiEndpoint).getD "http://localhost:3000/post/note"
    let acct? : Option Account :=
      post.account_id.bind (fun aid => accts.find? (fun a => decide (a.id = aid)))
    let endpoint : String :=
      match acct? with
      | some a => a.api_endpoint.getD endpoint0
      | none => endpoint0
    let nostrmqTarget : Option String := acct?.bind (fun a => a.nostrmq_target)
    let publishMethod : Method :=
      match acct? with
      | some a => post.publish_method.getD a.publish_method
      | none => post.publish_method.getD .direct
    match publishMethod with
    | .direct =>
      let account? : Option Account :=
        post.account_id.bind (fun aid => accts.find? (fun a => decide (a.id = aid)))
      let relays : Option (List String) := account?.bind (fun a => splitRelays a.relays)
      let result := publishSignedEventToRelays env signedEventData relays
      .ok (result.id <|> signedEventData.id)
    | .nostrmq =>
      match nostrmqTarget with
      | none => .error "NostrMQ target not set for NostrMQ publishing method"
      | some target =>
        match env.mqSend target with
        | .error e => .error e
        | .ok mqEventId => .ok (some mqEventId)
    | .api =>
      match env.http endpoint with
      | .error e => .error e
      | .ok response =>
        if !(responseOk response.status) then
          .error ("Failed to publish: " ++ toString response.status ++ " - " ++ response.text)
        else
          let extracted := extractEventId response.parsed response.text
          let eventId := extracted <|> signedEventData.id
          .ok (eventId <|> signedEventData.id)

/-- One iteration of the pre-signed loop of `checkAndPublishPosts`:
publish, then `markAsPublished` and (when an event id came back truthy)
`updatePostEventDetails`; on error, `markAsFailed`. -/
def processSignedPost (cfg : Config) (env : Env) (db : Db) (post : Post) : Db :=
  match publishPreSignedEvent cfg env db.accounts post with
  | .ok eventId =>
    let db1 := db.markAsPublished cfg.now post.id
    match eventId with
    | some s => if s = "" then db1 else db1.updatePostEventDetails post.id s
    | none => db1
  | .error msg => db.markAsFailed post.id msg

/-- One iteration of the legacy loop of `checkAndPublishPosts`:
`publishToNostr` resolves to `undefined` (`Promise<void>`), so the
`if (eventId)` guard in the source never fires and no event details are
recorded; on error, `markAsFailed`. -/
def processLegacyPost (cfg : Config) (env : Env) (db : Db) (post : Post) : Db :=
  match publishToNostr cfg env db post.content post.api_endpoint (some post.id) with
  | .ok _ => db.markAsPublished cfg.now post.id
  | .error msg => db.markAsFailed post.id msg

/-- `checkAndPublishPosts()`: publish due pre-signed posts, then the
legacy due pending posts (signed at publish time). -/
def checkAndPublishPosts (cfg : Config) (env : Env) (db : Db) : Db :=
  let signedPosts := db.getPendingSignedPosts cfg.now
  let db1 := signedPosts.foldl (processSignedPost cfg env) db
  let pendingPosts := db1.getPendingPosts cfg.now
  pendingPosts.foldl (processLegacyPost cfg env) db1

/-- `publishNow(postId)`: load the post, require status `pending`,
publish via the legacy `publishToNostr`, and record the outcome.  The
pair carries the call's result (the source rethrows on failure) and the
store afterwards. -/
def publishNowRun (cfg : Config) (env : Env) (db : Db) (postId : Nat) :
    Except String Unit × Db :=
  match db.getPost postId with
  | none => (.error ("Post " ++ toString postId ++ " not found"), db)
  | some post =>
    if post.status ≠ .pending then
      (.error ("Post " ++ toString postId ++ " is not pending (status: " ++
        statusText post.status ++ ")"), db)
    else
      match publishToNostr cfg env db post.content post.api_endpoint (some post.id) with
      | .ok _ => (.ok (), db.markAsPublished cfg.now post.id)
      | .error e => (.error e, db.markAsFailed post.id e)

/-! ### Signing queue (`signing-queue.service.ts`) -/

/-- Key resolution of `processAccountPosts`: account lookup, keychain
first, database `nsec` fallback, then `nip19.decode`.  Each failure is
thrown before any post of the batch is touched. -/
def resolveAccountKey (env : Env) (accts : List Account) (accountId : Nat) :
    Except String String :=
  match accts.find? (fun a => decide (a.id = accountId)) with
  | none => .error ("Account " ++ toString accountId ++ " not found")
  | some account =>
    let keychainNsec := env.keychain accountId
    let nsec : Option String :=
      if jsTruthy keychainNsec then keychainNsec
      else if jsTruthy account.nsec then account.nsec
      else none
    match nsec with
    | none => .error ("No private key found for account " ++ toString accountId)
    | some key =>
      match env.decodeNsec key with
      | none => .error ("Failed to decode nsec for account " ++ toString accountId)
      | some privhex => .ok privhex

/-- `if (powDifficulty > 0)`: mine and re-sign, else keep the event. -/
def applyPow (env : Env) (privhex : String) (event : NostrEvent)
    (powDifficulty : Nat) : Except String NostrEvent :=
  if powDifficulty > 0 then
    match mineEventPow env.hash env.mineFuel event powDifficulty with
    | some minedRaw => env.signEvent minedRaw privhex
    | none => .error "Proof-of-work mining worker failed"
  else .ok event

/-- Build, sign and optionally mine one post's event (the body of the
per-post try block of `processAccountPosts`). -/
def signOnePost (cfg : Config) (env : Env) (privhex : String) (powDifficulty : Nat)
    (post : Post) : Except String NostrEvent :=
  match env.signEvent (buildTextNote cfg.now post.content) privhex with
  | .error e => .error e
  | .ok event => applyPow env privhex event powDifficulty

/-- One post of an account batch: `markAsSigning`, then `markAsSigned`
with the final payload, or `markAsFailed` with the caught error. -/
def processOnePost (cfg : Config) (env : Env) (privhex : String) (powDifficulty : Nat)
    (db : Db) (post : Post) : Db :=
  let db1 := db.markAsSigning post.id
  match signOnePost cfg env privhex powDifficulty post with
  | .ok finalEvent => db1.markAsSigned post.id finalEvent
  | .error e => db1.markAsFailed post.id ("Signing failed: " ++ e)

/-- `processAccountPosts(accountId, posts)` together with the batch
catch in `processQueue`: a failure of account or key resolution marks
every post of the batch failed; otherwise each post is processed
individually. -/
def processAccountPosts (cfg : Config) (env : Env) (db : Db) (accountId : Nat)
    (posts : List Post) : Db :=
  match resolveAccountKey env db.accounts accountId with
  | .error e =>
    posts.foldl (fun d p => d.markAsFailed p.id ("Signing failed: " ++ e)) db
  | .ok privhex =>
    let powDifficulty := cfg.powBits.getD 20
    posts.foldl (processOnePost cfg env privhex powDifficulty) db

/-- Append a post to its account's group, preserving insertion order
(the JS `Map` of `groupPostsByAccount`). -/
def insertGrouped (acc : List (Nat × List Post)) (aid : Nat) (p : Post) :
    List (Nat × List Post) :=
  match acc with
  | [] => [(aid, [p])]
  | (k, ps) :: rest =>
    if k = aid then (k, ps ++ [p]) :: rest else (k, ps) :: insertGrouped rest aid p

/-- `groupPostsByAccount(posts)`: group by `post.account_id || 1`. -/
def groupPostsByAccount (posts : List Post) : List (Nat × List Post) :=
  posts.foldl (fun acc p => insertGrouped acc (p.account_id.getD 1) p) []

/-- The body of `processQueue` once the busy flag is taken: fetch, group
by account, process each batch. -/
def processQueueGo (cfg : Config) (env : Env) (db : Db) : Db :=
  let postsToSign := db.getPostsReadyForSigning
  let groups := groupPostsByAccount postsToSign
  groups.foldl (fun d g => processAccountPosts cfg env d g.1 g.2) db

/-- The signing queue's in-memory state: the store and the
`isProcessing` busy flag. -/
structure QueueState where
  db : Db
  isProcessing : Bool
deriving DecidableEq, Repr

/-- `processQueue()`: a no-op while `isProcessing` is set; otherwise run
a pass, the `finally` clause clearing the flag. -/
def processQueue (cfg : Config) (env : Env) (st : QueueState) : QueueState :=
  if st.isProcessing then st
  else { db := processQueueGo cfg env st.db, isProcessing := false }

/-! ### Status-transition relation and pointwise store evolution -/

/-- Ids of a post list. -/
def idsOf (ps : List Post) : List Nat := ps.map Post.id

/-- The store's primary-key invariant: post ids are distinct. -/
def UniqueIds (ps : List Post) : Prop := (idsOf ps).Nodup

instance : DecidablePred UniqueIds := fun ps =>
  inferInstanceAs (Decidable (idsOf ps).Nodup)

/-- One committed status update along the pipeline
`pending → signing → signed → published|failed` (spec §4.2), with
`failed` reachable from each non-terminal stage (a batch failure fails a
still-`pending` post, a per-post exception fails a `signing` post), plus
the legacy `pending → published|failed` path. -/
inductive StatusStep : Status → Status → Prop
  | pending_signing : StatusStep .pending .signing
  | signing_signed : StatusStep .signing .signed
  | signed_published : StatusStep .signed .published
  | signed_failed : StatusStep .signed .failed
  | signing_failed : StatusStep .signing .failed
  | pending_published : StatusStep .pending .published
  | pending_failed : StatusStep .pending .failed

/-- Zero or more pipeline steps. -/
inductive Reaches : Status → Status → Prop
  | refl (s : Status) : Reaches s s
  | head {a b c : Status} : StatusStep a b → Reaches b c → Reaches a c

/-- Pointwise evolution of a post store: same length, ids preserved, and
every post's status moves along the pipeline relation. -/
def StatusEvolves (old new : List Post) : Prop :=
  new.length = old.length ∧
  ∀ (i : Nat) (h : i < old.length) (h' : i < new.length),
    (new.get ⟨i, h'⟩).id = (old.get ⟨i, h⟩).id ∧
    Reaches (old.get ⟨i, h⟩).status (new.get ⟨i, h'⟩).status

/-- The net field update a pre-signed-loop iteration applies to its
post: publish outcome, then `markAsPublished` (+ event details when the
returned id is truthy) or `markAsFailed`. -/
def schedulerSignedOutcome (cfg : Config) (env : Env) (accts : List Account)
    (t q : Post) : Post :=
  match publishPreSignedEvent cfg env accts t with
  | .ok (some s) =>
    if s = "" then markAsPublishedF cfg.now q
    else updateEventDetailsF s (markAsPublishedF cfg.now q)
  | .ok none => markAsPublishedF cfg.now q
  | .error msg => markAsFailedF msg q

/-- The net field update a legacy-loop iteration applies to its post. -/
def legacyOutcome (cfg : Config) (env : Env) (accts : List Account)
    (t : Post) : Post → Post :=
  match publishToNostrResolved cfg env accts (some t) t.content t.api_endpoint true with
  | .ok _ => markAsPublishedF cfg.now
  | .error msg => markAsFailedF msg

/-- The net field update of one post whose account key resolved: the
individual sign-and-store outcome, `markAsSigning` composed into the
final `markAsSigned`/`markAsFailed`. -/
def signingAttemptF (cfg : Config) (env : Env) (privhex : String) (t q : Post) : Post :=
  match signOnePost cfg env privhex (cfg.powBits.getD 20) t with
  | .ok ev => markAsSignedF ev (markAsSigningF q)
  | .error e => markAsFailedF ("Signing failed: " ++ e) (markAsSigningF q)

/-- The net field update a signing-queue pass applies to a fetched post:
batch failure when its account's key cannot be resolved, otherwise the
per-post attempt. -/
def signingQueuePostOutcome (cfg : Config) (env : Env) (accts : List Account)
    (t q : Post) : Post :=
  match resolveAccountKey env accts (t.account_id.getD 1) with
  | .error e => markAsFailedF ("Signing failed: " ++ e) q
  | .ok privhex => signingAttemptF cfg env privhex t q

/-! ### Concrete instances used by counterexamples, scenarios and witnesses -/

/-- A concrete content hash that always returns a 64-digit zero string
(the most favourable hash for mining demos). -/
def demoHash : HashFn :=
  fun _ => "0000000000000000000000000000000000000000000000000000000000000000"

/-- Baseline demo environment: no relay acknowledges, no HTTP endpoint
answers, signing succeeds, keys decode. -/
def demoEnvBase : Env :=
  { http := fun _ => .error "fetch failed: connection refused",
    mqSend := fun _ => .error "NostrMQ send failed",
    relayAccepts := fun _ => false,
    publishTimesOut := false,
    connectFails := false,
    legacyPublishError := none,
    signEvent := fun e k => .ok { e with pubkey := some "pub", id := some "sid", sig := some k },
    hash := demoHash,
    mineFuel := 4,
    keychain := fun _ => none,
    decodeNsec := fun s => some s }

/-- Demo configuration: clock at 100, mining disabled. -/
def demoCfg : Config :=
  { now := 100, nostrApiEndpoint := none, nostrNpub := none, powBits := some 0 }

/-- A stored, signed event payload with id `e1`. -/
def demoSignedEv : NostrEvent :=
  { kind := 1, content := "hello", tags := [], created_at := 50,
    pubkey := some "pub", id := some "e1", sig := some "s" }

/-- A direct-channel account with one configured relay. -/
def acctDirect : Account :=
  { id := 1, name := "A", npub := "npub1xyz", nsec := some "nsec1",
    keychain_ref := none, api_endpoint := none, publish_method := .direct,
    nostrmq_target := none, relays := some "wss://r1", is_active := true }

/-- A due, pre-signed, direct-channel post. -/
def postC1 : Post :=
  { id := 1, note_id := 1, scheduled_for := 0, published_at := none,
    status := .signed, error_message := none, event_id := none,
    primal_url := none, api_endpoint := none, account_id := some 1,
    publish_method := some .direct, signed_event := some (.valid demoSignedEv),
    content := "hello" }

/-- Store with the one pre-signed direct post. -/
def dbC1 : Db := { posts := [postC1], accounts := [acctDirect] }

/-- Environment in which one relay acknowledges. -/
def envC1ok : Env := { demoEnvBase with relayAccepts := fun _ => true }

/-- A due legacy (never pre-signed) post routed to the API channel. -/
def postC3 : Post :=
  { id := 2, note_id := 2, scheduled_for := 0, published_at := none,
    status := .pending, error_message := none, event_id := none,
    primal_url := none, api_endpoint := some "http://mock",
    account_id := some 1, publish_method := some .api, signed_event := none,
    content := "legacy" }

/-- Store with the one legacy pending post. -/
def dbC3 : Db := { posts := [postC3], accounts := [acctDirect] }

/-- Environment whose HTTP endpoint answers 200 to every request. -/
def envC3 : Env :=
  { demoEnvBase with
    http := fun _ => .ok { status := 200, text := "ok", parsed := .other } }

/-- A fresh unsigned demo event. -/
def demoEvt : NostrEvent := buildTextNote 77 "hello world"

/-- A due, pre-signed post routed to the API channel with a per-post
endpoint override and no account. -/
def postC8 : Post :=
  { id := 3, note_id := 3, scheduled_for := 0, published_at := none,
    status := .signed, error_message := none, event_id := none,
    primal_url := none, api_endpoint := some "http://mock",
    account_id := none, publish_method := some .api,
    signed_event := some (.valid demoSignedEv), content := "note" }

/-- Store for the API-channel scenario. -/
def dbC8 : Db := { posts := [postC8], accounts := [] }

/-- Mock endpoint of the spec scenario: HTTP 200 with body
`\x7b"id":"abc123"\x7d`. -/
def envC8 : Env :=
  { demoEnvBase with
    http := fun ep =>
      if ep = "http://mock" then
        .ok { status := 200, text := "\x7b\"id\":\"abc123\"\x7d",
              parsed := .obj none none (some "abc123") }
      else .error "fetch failed: connection refused" }

/-- A non-2xx HTTP response used to exercise the error branch. -/
def resp500 : HttpResponse := { status := 500, text := "boom", parsed := .notJson }

/-- Environment whose HTTP endpoint answers 500 to every request. -/
def envC8bad : Env := { demoEnvBase with http := fun _ => .ok resp500 }

/-- A post already in `published`. -/
def postPub : Post :=
  { id := 7, note_id := 7, scheduled_for := 0, published_at := some 90,
    status := .published, error_message := none, event_id := some "e7",
    primal_url := none, api_endpoint := none, account_id := some 1,
    publish_method := some .direct, signed_event := none, content := "done" }

/-- A post already in `failed`. -/
def postFail : Post :=
  { id := 8, note_id := 8, scheduled_for := 0, published_at := none,
    status := .failed, error_message := some "relay down", event_id := none,
    primal_url := none, api_endpoint := none, account_id := some 1,
    publish_method := some .direct, signed_event := none, content := "oops" }

/-- Store holding one published and one failed post. -/
def dbTerminal : Db := { posts := [postPub, postFail], accounts := [acctDirect] }

/-- Account B of the isolation scenario: key present in the database. -/
def acctB : Account :=
  { id := 2, name := "B", npub := "npub1b", nsec := some "nsecB",
    keychain_ref := none, api_endpoint := none, publish_method := .api,
    nostrmq_target := none, relays := none, is_active := false }

/-- A pending post of the missing account 5. -/
def postA1 : Post :=
  { id := 10, note_id := 10, scheduled_for := 0, published_at := none,
    status := .pending, error_message := none, event_id := none,
    primal_url := none, api_endpoint := none, account_id := some 5,
    publish_method := none, signed_event := none, content := "a1" }

/-- A pending post of account B. -/
def postB1 : Post :=
  { id := 11, note_id := 11, scheduled_for := 0, published_at := none,
    status := .pending, error_message := none, event_id := none,
    primal_url := none, api_endpoint := none, account_id := some 2,
    publish_method := none, signed_event := none, content := "b1" }

/-- Store of the isolation scenario: account 5 does not exist, account 2
does and has a key. -/
def dbC6 : Db := { posts := [postA1, postB1], accounts := [acctB] }

/-! ## Helper lemmas -/

/-- At difficulty 0 the difficulty check accepts every hash. -/
theorem hashMatchesDifficulty_zero (id : String) : hashMatchesDifficulty id 0 = true := by
  simp [hashMatchesDifficulty, startsWithZeros]

/-- A string ending in a nonempty literal is nonempty. -/
theorem append_right_ne_empty (a b : String) (hb : 0 < b.length) : a ++ b ≠ "" := by
  intro he
  have h2 := congrArg String.length he
  rw [String.length_append] at h2
  have h0 : ("" : String).length = 0 := rfl
  rw [h0] at h2
  omega

/-- Two updates of the same post collapse to one composite update. -/
theorem setPost_setPost (ps : List Post) (j : Nat) (f g : Post → Post)
    (hf : ∀ p, (f p).id = p.id) :
    setPost (setPost ps j f) j g = setPost ps j (fun p => g (f p)) := by
  unfold setPost
  rw [List.map_map]
  apply List.map_congr_left
  intro p _
  by_cases h : p.id = j
  · simp [Function.comp, h, hf]
  · simp [Function.comp, h]

/-! ## Claims -/

/-- C1 counterexample: with the pre-signed direct channel, an
environment in which zero relays acknowledge the event does not raise an
error; the scheduler pass marks the post `published` with the payload's
event id and no error message, contradicting the claim that it must end
`failed`. -/
theorem c1_direct_zero_relays_marks_published :
    (publishSignedEventToRelays demoEnvBase demoSignedEv (some ["wss://r1"])).relays = [] ∧
    ((checkAndPublishPosts demoCfg demoEnvBase dbC1).posts.map
        (fun p => (p.status, p.error_message, p.event_id)))
      = [(Status.published, (none : Option String), some "e1")] := by
  exact ⟨rfl, rfl⟩

/-- C1 amended: the pre-signed direct channel never raises on relay
failure.  For every environment (in particular with zero acknowledging
relays, and with at least one), `publishPreSignedEvent` returns the
stored payload's event id, and the scheduler records the post as
`published` with that non-null event id. -/
theorem c1_amended_presigned_direct_never_raises
    (cfg : Config) (env : Env) (db : Db) (post : Post) (ev : NostrEvent) (eid : String)
    (hse : post.signed_event = some (.valid ev)) (hid : ev.id = some eid)
    (hne : eid ≠ "") (hm : post.publish_method = some .direct) :
    publishPreSignedEvent cfg env db.accounts post = .ok (some eid) ∧
    (processSignedPost cfg env db post).posts
      = setPost db.posts post.id
          (fun q => updateEventDetailsF eid (markAsPublishedF cfg.now q)) ∧
    (processSignedPost cfg env db post).accounts = db.accounts := by
  have hpub : publishPreSignedEvent cfg env db.accounts post = .ok (some eid) := by
    unfold publishPreSignedEvent
    rw [hse]
    cases hacct : post.account_id.bind
        (fun aid => db.accounts.find? (fun a => decide (a.id = aid))) with
    | none => simp [hacct, hm, publishSignedEventToRelays, hid]
    | some a => simp [hacct, hm, publishSignedEventToRelays, hid]
  have hstep : processSignedPost cfg env db post
      = (db.markAsPublished cfg.now post.id).updatePostEventDetails post.id eid := by
    unfold processSignedPost
    rw [hpub]
    exact if_neg hne
  refine ⟨hpub, ?_, ?_⟩
  · rw [hstep]
    unfold Db.updatePostEventDetails Db.markAsPublished
    exact setPost_setPost db.posts post.id _ _ (fun p => rfl)
  · rw [hstep]
    rfl

/-- C1 amended witness: concrete instantiation at the demo store, in an
environment where one relay acknowledges. -/
theorem c1_amended_witness :
    publishPreSignedEvent demoCfg envC1ok dbC1.accounts postC1 = .ok (some "e1") :=
  (c1_amended_presigned_direct_never_raises demoCfg envC1ok dbC1 postC1 demoSignedEv "e1"
    rfl rfl (by decide) rfl).1

/-- C3: evaluating the scheduler's legacy path at the failing input: a
due legacy `pending` post whose API delivery succeeds (HTTP 200) ends
`published` with a NULL event id, because `publishToNostr` is typed
`Promise<void>` and resolves to `undefined`, so the scheduler's
`if (eventId)` recording branch never fires. -/
theorem c3_legacy_publish_leaves_event_id_null :
    ((checkAndPublishPosts demoCfg envC3 dbC3).posts.map
        (fun p => (p.status, p.event_id)))
      = [(Status.published, (none : Option String))] := by
  exact rfl

/-- C4 counterexample: mining at difficulty 0 is not the identity: the
worker appends the nonce tag `["nonce","0","0"]` before the first check,
so the returned event's tags differ from the input's. -/
theorem c4_mine_at_zero_appends_nonce_tag :
    (mineEventPow demoHash 1 demoEvt 0).map NostrEvent.tags
      = some [["nonce", "0", "0"]] ∧
    demoEvt.tags = [] :=
  ⟨rfl, rfl⟩

/-- C4 amended: at difficulty 0 the worker accepts its very first
attempt, returning the event with one appended `["nonce","0","0"]` tag
and a recomputed id; the no-op behaviour lives at the call sites, which
skip the mining call entirely when the difficulty is 0
(`if (powDifficulty > 0)`). -/
theorem c4_amended_mine_zero_first_attempt_and_callers_skip
    (hash : HashFn) (fuel : Nat) (evt : NostrEvent) (hfuel : 0 < fuel) :
    mineEventPow hash fuel evt 0 = some (mineAttempt hash evt 0 0) ∧
    (∀ env privhex e, applyPow env privhex e 0 = .ok e) ∧
    (mineAttempt hash evt 0 0).tags = evt.tags ++ [["nonce", "0", "0"]] := by
  refine ⟨?_, ?_, rfl⟩
  · cases fuel with
    | zero => omega
    | succ n =>
      unfold mineEventPow mineLoop
      simp [hashMatchesDifficulty_zero]
  · intro env privhex e
    rfl

/-- C4 amended witness: concrete instantiation at fuel 1. -/
theorem c4_amended_witness :
    mineEventPow demoHash 1 demoEvt 0 = some (mineAttempt demoHash demoEvt 0 0) :=
  (c4_amended_mine_zero_first_attempt_and_callers_skip demoHash 1 demoEvt (by decide)).1

/-- C7: `publishNow` on a post already `published` raises an error with
a nonempty message and leaves the store completely unchanged. -/
theorem c7_publishNow_on_published_rejected_no_change
    (cfg : Config) (env : Env) (db : Db) (postId : Nat) (post : Post)
    (hp : db.getPost postId = some post) (hs : post.status = .published) :
    (publishNowRun cfg env db postId).2 = db ∧
    ∃ msg, (publishNowRun cfg env db postId).1 = .error msg ∧ msg ≠ "" := by
  have hne : post.status ≠ .pending := by rw [hs]; intro h; cases h
  have hrun : publishNowRun cfg env db postId
      = (.error ("Post " ++ toString postId ++ " is not pending (status: "
          ++ statusText post.status ++ ")"), db) := by
    unfold publishNowRun
    rw [hp]
    exact if_pos hne
  rw [hrun]
  refine ⟨rfl, _, rfl, ?_⟩
  apply append_right_ne_empty
  decide

/-- C7 witness: concrete instantiation at the store holding a published
post. -/
theorem c7_witness :
    (publishNowRun demoCfg demoEnvBase dbTerminal 7).2 = dbTerminal ∧
    ∃ msg, (publishNowRun demoCfg demoEnvBase dbTerminal 7).1 = .error msg ∧ msg ≠ "" :=
  c7_publishNow_on_published_rejected_no_change demoCfg demoEnvBase dbTerminal 7 postPub
    rfl rfl

/-- C9: invoking `processQueue` while the in-memory busy flag is set is
a no-op (the state, store included, is returned untouched), and a pass
started with the flag clear completes with the flag clear again, so
later invocations proceed. -/
theorem c9_processQueue_busy_flag_noop
    (cfg : Config) (env : Env) (st : QueueState) (h : st.isProcessing = true) :
    processQueue cfg env st = st ∧
    (∀ db, (processQueue cfg env ⟨db, false⟩).isProcessing = false) := by
  constructor
  · simp [processQueue, h]
  · intro db
    rfl

/-- C9 witness: concrete instantiation at a busy queue state. -/
theorem c9_witness :
    processQueue demoCfg demoEnvBase ⟨dbC1, true⟩ = ⟨dbC1, true⟩ :=
  (c9_processQueue_busy_flag_noop demoCfg demoEnvBase ⟨dbC1, true⟩ rfl).1

/-- C10: `publishNow` succeeds only on posts whose status is exactly
`pending`: a non-existent post id raises a not-found error with no state
change, a `failed` post raises an error naming the current status with
no state change (so a failed post cannot be retried through this path),
and a successful call implies the post was `pending`. -/
theorem c10_publishNow_only_pending
    (cfg : Config) (env : Env) (db : Db) (postId : Nat) :
    (db.getPost postId = none →
      publishNowRun cfg env db postId
        = (.error ("Post " ++ toString postId ++ " not found"), db)) ∧
    (∀ post, db.getPost postId = some post → post.status = .failed →
      publishNowRun cfg env db postId
        = (.error ("Post " ++ toString postId ++ " is not pending (status: "
            ++ statusText .failed ++ ")"), db)) ∧
    (∀ post u, db.getPost postId = some post →
      (publishNowRun cfg env db postId).1 = .ok u → post.status = .pending) := by
  refine ⟨?_, ?_, ?_⟩
  · intro hnone
    unfold publishNowRun
    rw [hnone]
  · intro post hp hf
    unfold publishNowRun
    rw [hp]
    simp only [hf]
    exact if_pos (by decide)
  · intro post u hp hok
    by_cases h : post.status = .pending
    · exact h
    · exfalso
      unfold publishNowRun at hok
      rw [hp] at hok
      simp [h] at hok

/-- C10 witness: concrete instantiation at the store's failed post. -/
theorem c10_witness :
    publishNowRun demoCfg demoEnvBase dbTerminal 8
      = (.error ("Post " ++ toString (8 : Nat) ++ " is not pending (status: "
          ++ statusText .failed ++ ")"), dbTerminal) :=
  (c10_publishNow_only_pending demoCfg demoEnvBase dbTerminal 8).2.1 postFail rfl rfl

/-- C8: for the API channel of the pre-signed publisher, a non-2xx
response raises an error whose message carries the response body; a 2xx
response yields the id extracted by the ordered probe (`eventId`,
`event_id`, `id`, bare 64-character string) with the stored payload's id
as fallback; and the spec scenario — a due post pointed at a mock
endpoint answering HTTP 200 with body `\x7b"id":"abc123"\x7d` — ends
`published` with event id `abc123` after one scheduler pass. -/
theorem c8_api_channel_event_id_extraction :
    (∀ (cfg : Config) (env : Env) (accts : List Account) (post : Post)
        (ev : NostrEvent) (r : HttpResponse),
      post.signed_event = some (.valid ev) →
      post.publish_method = some .api →
      post.account_id = none →
      env.http ((post.api_endpoint <|> cfg.nostrApiEndpoint).getD
        "http://localhost:3000/post/note") = .ok r →
      responseOk r.status = false →
      publishPreSignedEvent cfg env accts post
        = .error ("Failed to publish: " ++ toString r.status ++ " - " ++ r.text)) ∧
    (∀ (cfg : Config) (env : Env) (accts : List Account) (post : Post)
        (ev : NostrEvent) (r : HttpResponse),
      post.signed_event = some (.valid ev) →
      post.publish_method = some .api →
      post.account_id = none →
      env.http ((post.api_endpoint <|> cfg.nostrApiEndpoint).getD
        "http://localhost:3000/post/note") = .ok r →
      responseOk r.status = true →
      publishPreSignedEvent cfg env accts post
        = .ok ((extractEventId r.parsed r.text <|> ev.id) <|> ev.id)) ∧
    ((checkAndPublishPosts demoCfg envC8 dbC8).posts.map
        (fun p => (p.status, p.event_id)))
      = [(Status.published, some "abc123")] := by
  refine ⟨?_, ?_, rfl⟩
  · intro cfg env accts post ev r hse hm hacc hhttp hbad
    unfold publishPreSignedEvent
    rw [hse]
    simp [hacc, hm, hhttp, hbad]
  · intro cfg env accts post ev r hse hm hacc hhttp hok
    unfold publishPreSignedEvent
    rw [hse]
    simp [hacc, hm, hhttp, hok]

/-- C8 witness: concrete instantiation of the non-2xx conjunct at the
500-answering environment. -/
theorem c8_witness :
    publishPreSignedEvent demoCfg envC8bad [] postC8
      = .error ("Failed to publish: " ++ toString (500 : Nat) ++ " - " ++ "boom") :=
  c8_api_channel_event_id_extraction.1 demoCfg envC8bad [] postC8 demoSignedEv resp500
    rfl rfl rfl rfl rfl

/-! ## Proof-of-work difficulty check: helper lemmas -/

/-- Unfolding equation for `hexLeadingZeroBitsAux` on a cons cell. -/
theorem hexLeadingZeroBitsAux_cons (c : Char) (rest : List Char) :
    hexLeadingZeroBitsAux (c :: rest)
      = (match hexDigitVal c with
         | none => 0
         | some v =>
           if v = 0 then 4 + hexLeadingZeroBitsAux rest else nibbleLeadingZeros v) := rfl

/-- Leading-zero count through a zero hex digit. -/
theorem zlb_cons_zero (c : Char) (rest : List Char) (h : hexDigitVal c = some 0) :
    hexLeadingZeroBitsAux (c :: rest) = 4 + hexLeadingZeroBitsAux rest := by
  rw [hexLeadingZeroBitsAux_cons, h]
  simp

/-- Leading-zero count at a nonzero hex digit. -/
theorem zlb_cons_pos (c : Char) (rest : List Char) (v : Nat)
    (h : hexDigitVal c = some v) (hv : v ≠ 0) :
    hexLeadingZeroBitsAux (c :: rest) = nibbleLeadingZeros v := by
  rw [hexLeadingZeroBitsAux_cons, h]
  simp [hv]

/-- A parsed hex digit is below 16. -/
theorem hexDigitVal_lt_16 (c : Char) (v : Nat) (h : hexDigitVal c = some v) : v < 16 := by
  unfold hexDigitVal at h
  split_ifs at h with h1 h2 h3 <;> simp_all <;> omega

/-- The zero hex digit is exactly the character `'0'`. -/
theorem hexDigitVal_zero_iff (c : Char) : hexDigitVal c = some 0 ↔ c = '0' := by
  constructor
  · intro h
    unfold hexDigitVal at h
    split_ifs at h with h1 h2 h3
    · have hv : c.toNat - 48 = 0 := by simpa using h
      have hc : c.toNat = 48 := by omega
      calc c = Char.ofNat c.toNat := (Char.ofNat_toNat c).symm
        _ = '0' := by rw [hc]
    · have hv : c.toNat - 87 = 0 := by simpa using h
      omega
    · have hv : c.toNat - 55 = 0 := by simpa using h
      omega
  · intro h
    subst h
    decide

/-- A nonzero nibble has at most 3 leading zero bits. -/
theorem nibbleLeadingZeros_le_3 (v : Nat) (h : v ≠ 0) : nibbleLeadingZeros v ≤ 3 := by
  unfold nibbleLeadingZeros
  split_ifs <;> omega

/-- The source's partial-nibble mask agrees with counting leading zero
bits of the nibble. -/
theorem nibble_check_iff (v r : Nat) (hv : v < 16) (hr1 : 1 ≤ r) (hr3 : r ≤ 3) :
    ((v >>> (4 - r) == 0) = true ↔ r ≤ nibbleLeadingZeros v) := by
  interval_cases v <;> interval_cases r <;> decide

/-- A block of q zero hex digits is exactly 4q leading zero bits. -/
theorem take_zeros_iff (q : Nat) :
    ∀ (l : List Char), (∀ c ∈ l, (hexDigitVal c).isSome) → q ≤ l.length →
      (l.take q = List.replicate q '0' ↔ 4 * q ≤ hexLeadingZeroBitsAux l) := by
  induction q with
  | zero => intro l _ _; simp
  | succ q ih =>
    intro l hhex hq
    cases l with
    | nil => simp at hq
    | cons c l' =>
      have hcs : (hexDigitVal c).isSome := hhex c (List.mem_cons_self c l')
      obtain ⟨v, hv⟩ := Option.isSome_iff_exists.mp hcs
      have hq' : q ≤ l'.length := by simpa using hq
      have hhex' : ∀ d ∈ l', (hexDigitVal d).isSome :=
        fun d hd => hhex d (List.mem_cons_of_mem c hd)
      rw [List.take_succ_cons, List.replicate_succ]
      constructor
      · intro h
        have hc0 : c = '0' := (List.cons.injEq _ _ _ _).mp h |>.1
        have ht : l'.take q = List.replicate q '0' := (List.cons.injEq _ _ _ _).mp h |>.2
        have hz : hexDigitVal c = some 0 := (hexDigitVal_zero_iff c).mpr hc0
        rw [zlb_cons_zero c l' hz]
        have := (ih l' hhex' hq').mp ht
        omega
      · intro h
        by_cases v0 : v = 0
        · subst v0
          have hc0 : c = '0' := (hexDigitVal_zero_iff c).mp hv
          rw [zlb_cons_zero c l' hv] at h
          have ht := (ih l' hhex' hq').mpr (by omega)
          rw [hc0, ht]
        · rw [zlb_cons_pos c l' v hv v0] at h
          have := nibbleLeadingZeros_le_3 v v0
          omega

/-- Leading zero bits decompose across a block of zero hex digits. -/
theorem zlb_of_take_zeros (q : Nat) :
    ∀ (l : List Char), l.take q = List.replicate q '0' →
      hexLeadingZeroBitsAux l = 4 * q + hexLeadingZeroBitsAux (l.drop q) := by
  induction q with
  | zero => intro l _; simp
  | succ q ih =>
    intro l h
    cases l with
    | nil => rw [List.replicate_succ] at h; simp at h
    | cons c l' =>
      rw [List.take_succ_cons, List.replicate_succ] at h
      have hc0 : c = '0' := (List.cons.injEq _ _ _ _).mp h |>.1
      have ht : l'.take q = List.replicate q '0' := (List.cons.injEq _ _ _ _).mp h |>.2
      have hz : hexDigitVal c = some 0 := (hexDigitVal_zero_iff c).mpr hc0
      rw [List.drop_succ_cons, zlb_cons_zero c l' hz, ih l' ht]
      omega

/-- The source's difficulty check accepts a well-formed hex hash exactly
when it has at least `bits` leading zero bits. -/
theorem hashMatches_iff_leadingZeroBits (s : String) (bits : Nat)
    (hhex : ∀ c ∈ s.data, (hexDigitVal c).isSome)
    (hlen : bits ≤ 4 * s.data.length) :
    (hashMatchesDifficulty s bits = true ↔ bits ≤ leadingZeroBits s) := by
  unfold hashMatchesDifficulty leadingZeroBits startsWithZeros
  have hql : bits / 4 ≤ s.data.length := by omega
  by_cases ht : s.data.take (bits / 4) = List.replicate (bits / 4) '0'
  · have hb : (s.data.take (bits / 4) == List.replicate (bits / 4) '0') = true :=
      beq_iff_eq.mpr ht
    by_cases hr : bits % 4 = 0
    · simp only [hb, Bool.not_true, Bool.false_eq_true, if_false, hr, if_true]
      have h4q := (take_zeros_iff (bits / 4) s.data hhex hql).mp ht
      constructor
      · intro _
        omega
      · intro _
        trivial
    · have hqlt : bits / 4 < s.data.length := by omega
      have hget : s.data.get? (bits / 4) = some (s.data.get ⟨bits / 4, hqlt⟩) :=
        List.get?_eq_get hqlt
      set c := s.data.get ⟨bits / 4, hqlt⟩ with hc
      have hcs : (hexDigitVal c).isSome := hhex c (List.get_mem _ _ _)
      obtain ⟨v, hv⟩ := Option.isSome_iff_exists.mp hcs
      have hv16 := hexDigitVal_lt_16 c v hv
      have hzl : hexLeadingZeroBitsAux s.data
          = 4 * (bits / 4) + hexLeadingZeroBitsAux (s.data.drop (bits / 4)) :=
        zlb_of_take_zeros (bits / 4) s.data ht
      have hdrop : s.data.drop (bits / 4) = c :: s.data.drop (bits / 4 + 1) :=
        List.drop_eq_getElem_cons hqlt
      simp only [hb, Bool.not_true, Bool.false_eq_true, if_false, hr, hget, hv]
      by_cases v0 : v = 0
      · subst v0
        constructor
        · intro _
          rw [hzl, hdrop, zlb_cons_zero c _ hv]
          omega
        · intro _
          simp [Nat.zero_shiftRight]
      · have hiff := nibble_check_iff v (bits % 4) hv16 (by omega) (by omega)
        rw [hzl, hdrop, zlb_cons_pos c _ v hv v0]
        constructor
        · intro h
          have := hiff.mp h
          omega
        · intro h
          exact hiff.mpr (by omega)
  · have hb : (s.data.take (bits / 4) == List.replicate (bits / 4) '0') = false := by
      rw [beq_eq_false_iff_ne]
      exact ht
    simp only [hb, Bool.not_false, if_true]
    constructor
    · intro h
      exact absurd h (by simp)
    · intro h
      exfalso
      apply ht
      apply (take_zeros_iff (bits / 4) s.data hhex hql).mpr
      have h4 : 4 * (bits / 4) ≤ bits := by omega
      omega

/-- A successful worker loop returns an event whose id passes the
difficulty check. -/
theorem mineLoop_check (hash : HashFn) (e : NostrEvent) (d : Nat) :
    ∀ (fuel nonce : Nat) (mined : NostrEvent),
      mineLoop hash e d fuel nonce = some mined →
      hashMatchesDifficulty (mined.id.getD "") d = true := by
  intro fuel
  induction fuel with
  | zero => intro nonce mined h; simp [mineLoop] at h
  | succ n ih =>
    intro nonce mined h
    unfold mineLoop at h
    by_cases hc : hashMatchesDifficulty ((mineAttempt hash e d nonce).id.getD "") d = true
    · rw [if_pos hc] at h
      cases h
      exact hc
    · rw [if_neg hc] at h
      exact ih _ _ h

/-- C5: an event returned by mining at difficulty N has a content hash
passing the difficulty check — a byte-aligned zero-nibble count followed
by a mask of the next nibble's high bits — and, for a well-formed hex
hash, that check holds exactly when the hash has at least N leading zero
bits.  The check is a pure function of the hash and target, so
re-checking the returned hash against the same target always passes
(the first conjunct is that recheck). -/
theorem c5_mined_hash_has_leading_zero_bits
    (hash : HashFn) (fuel : Nat) (evt : NostrEvent) (N : Nat)
    (mined : NostrEvent) (idStr : String)
    (hmine : mineEventPow hash fuel evt N = some mined)
    (hid : mined.id = some idStr)
    (hhex : ∀ c ∈ idStr.data, (hexDigitVal c).isSome)
    (hlen : N ≤ 4 * idStr.data.length) :
    hashMatchesDifficulty idStr N = true ∧ N ≤ leadingZeroBits idStr := by
  have hcheck := mineLoop_check hash evt N fuel 0 mined hmine
  rw [hid] at hcheck
  simp only [Option.getD_some] at hcheck
  exact ⟨hcheck, (hashMatches_iff_leadingZeroBits idStr N hhex hlen).mp hcheck⟩

/-- C5 witness: concrete instantiation mining the demo event at
difficulty 8 under the all-zero demo hash. -/
theorem c5_witness :
    hashMatchesDifficulty
        "0000000000000000000000000000000000000000000000000000000000000000" 8 = true ∧
    8 ≤ leadingZeroBits
        "0000000000000000000000000000000000000000000000000000000000000000" :=
  c5_mined_hash_has_leading_zero_bits demoHash 1 demoEvt 8
    (mineAttempt demoHash demoEvt 8 0)
    "0000000000000000000000000000000000000000000000000000000000000000"
    (by decide) rfl (by decide) (by decide)

/-! ## Store machinery: id-keyed updates and loop characterisations -/

/-- Updating one post by id preserves the id column. -/
theorem setPost_id_preserve (ps : List Post) (j : Nat) (f : Post → Post)
    (hf : ∀ p, (f p).id = p.id) : idsOf (setPost ps j f) = idsOf ps := by
  unfold idsOf setPost
  rw [List.map_map]
  apply List.map_congr_left
  intro p _
  by_cases h : p.id = j
  · simp [Function.comp, h, hf]
  · simp [Function.comp, h]

/-- In a store with unique ids, id equality identifies posts. -/
theorem mem_id_inj {ps : List Post} (h : UniqueIds ps) {p q : Post}
    (hp : p ∈ ps) (hq : q ∈ ps) (hid : p.id = q.id) : p = q := by
  induction ps with
  | nil => cases hp
  | cons x l ih =>
    have hnd : (∀ y ∈ l, ¬ y.id = x.id) ∧ (List.map Post.id l).Nodup := by
      simpa [UniqueIds, idsOf, List.nodup_cons] using h
    rcases List.mem_cons.mp hp with hpx | hpl <;> rcases List.mem_cons.mp hq with hqx | hql
    · rw [hpx, hqx]
    · exfalso
      rw [hpx] at hid
      exact hnd.1 q hql hid.symm
    · exfalso
      rw [hqx] at hid
      exact hnd.1 p hpl hid
    · exact ih hnd.2 hpl hql

/-- In a store with unique ids, looking a member post up by id finds it. -/
theorem find_by_id_of_mem {ps : List Post} (h : UniqueIds ps) {t : Post} (ht : t ∈ ps) :
    ps.find? (fun p => decide (p.id = t.id)) = some t := by
  induction ps with
  | nil => cases ht
  | cons x l ih =>
    by_cases hx : x.id = t.id
    · have hxt : x = t := mem_id_inj h (List.mem_cons_self x l) ht hx
      rw [List.find?_cons_of_pos l (by simp [hx])]
      rw [hxt]
    · have ht' : t ∈ l := by
        rcases List.mem_cons.mp ht with he | hl
        · exact absurd (by rw [he]) hx
        · exact hl
      have h' : UniqueIds l := by
        have hh : (∀ y ∈ l, ¬ y.id = x.id) ∧ (List.map Post.id l).Nodup := by
          simpa [UniqueIds, idsOf, List.nodup_cons] using h
        exact hh.2
      rw [List.find?_cons_of_neg l (by simp [hx])]
      exact ih h' ht'

/-- Membership of an id among the ids of a filtered store with unique
ids is exactly the filter predicate. -/
theorem mem_ids_filter_iff {ps : List Post} (h : UniqueIds ps) (P : Post → Bool)
    {q : Post} (hq : q ∈ ps) :
    (q.id ∈ idsOf (ps.filter P)) ↔ P q = true := by
  constructor
  · intro hin
    obtain ⟨t, ht, hid⟩ := List.mem_map.mp hin
    have ht' : t ∈ ps := List.mem_of_mem_filter ht
    have hP : P t = true := List.of_mem_filter ht
    have hqt : t = q := mem_id_inj h ht' hq hid
    rw [← hqt]
    exact hP
  · intro hP
    exact List.mem_map_of_mem Post.id (List.mem_filter.mpr ⟨hq, hP⟩)

/-- A loop that updates each fetched post by its own id is the pointwise
map marking exactly the fetched ids.  `Φ accts t q` is the field update
the iteration for fetched post `t` applies to the stored row `q`. -/
theorem foldl_step_char (step : Db → Post → Db) (Φ : List Account → Post → Post → Post)
    (hΦid : ∀ accts t q, (Φ accts t q).id = q.id)
    (hstep : ∀ (db : Db) (t : Post), UniqueIds db.posts → t ∈ db.posts →
      step db t = { posts := setPost db.posts t.id (Φ db.accounts t),
                    accounts := db.accounts }) :
    ∀ (ts : List Post) (db : Db),
      (idsOf ts).Nodup → UniqueIds db.posts → (∀ t ∈ ts, t ∈ db.posts) →
      ts.foldl step db
        = { posts := db.posts.map
              (fun q => if q.id ∈ idsOf ts then Φ db.accounts q q else q),
            accounts := db.accounts } := by
  intro ts
  induction ts with
  | nil =>
    intro db _ _ _
    simp [idsOf]
  | cons t ts ih =>
    intro db hnodup huniq hmem
    rw [List.foldl_cons, hstep db t huniq (hmem t (List.mem_cons_self t ts))]
    have hpair : (∀ y ∈ ts, ¬ y.id = t.id) ∧ (List.map Post.id ts).Nodup := by
      simpa [idsOf, List.nodup_cons] using hnodup
    have htid : t.id ∉ idsOf ts := by
      intro hc
      obtain ⟨y, hy, hyid⟩ := List.mem_map.mp hc
      exact hpair.1 y hy hyid
    have hnodup' : (idsOf ts).Nodup := hpair.2
    set db' : Db := { posts := setPost db.posts t.id (Φ db.accounts t),
                      accounts := db.accounts } with hdb'
    have hids' : idsOf db'.posts = idsOf db.posts :=
      setPost_id_preserve _ _ _ (hΦid db.accounts t)
    have huniq' : UniqueIds db'.posts := by
      unfold UniqueIds
      rw [hids']
      exact huniq
    have hmem' : ∀ u ∈ ts, u ∈ db'.posts := by
      intro u hu
      have hu0 : u ∈ db.posts := hmem u (List.mem_cons_of_mem t hu)
      have hneq : ¬(u.id = t.id) := fun he => htid (he ▸ List.mem_map_of_mem Post.id hu)
      have himg : (if u.id = t.id then Φ db.accounts t u else u) = u := if_neg hneq
      have hmm : u ∈ db.posts.map (fun p => if p.id = t.id then Φ db.accounts t p else p) := by
        rw [← himg]
        exact List.mem_map_of_mem _ hu0
      exact hmm
    rw [ih db' hnodup' huniq' hmem']
    congr 1
    show (setPost db.posts t.id (Φ db.accounts t)).map
        (fun q => if q.id ∈ idsOf ts then Φ db.accounts q q else q)
      = db.posts.map (fun q => if q.id ∈ idsOf (t :: ts) then Φ db.accounts q q else q)
    unfold setPost
    rw [List.map_map]
    apply List.map_congr_left
    intro p hp
    simp only [Function.comp_apply]
    by_cases hpt : p.id = t.id
    · have hpeq : p = t := mem_id_inj huniq hp (hmem t (List.mem_cons_self t ts)) hpt
      rw [if_pos hpt]
      have hid1 : (Φ db.accounts t p).id = p.id := hΦid _ _ _
      have hnotin : ¬ ((Φ db.accounts t p).id ∈ idsOf ts) := by
        rw [hid1, hpt]
        exact htid
      rw [if_neg hnotin]
      have hin : p.id ∈ idsOf (t :: ts) := by
        rw [hpt]
        exact List.mem_cons_self t.id (idsOf ts)
      rw [if_pos hin, hpeq]
    · rw [if_neg hpt]
      by_cases hin : p.id ∈ idsOf ts
      · have hin' : p.id ∈ idsOf (t :: ts) := List.mem_cons_of_mem t.id hin
        rw [if_pos hin, if_pos hin']
      · have hnin' : ¬ p.id ∈ idsOf (t :: ts) := by
          intro hc
          rcases List.mem_cons.mp hc with he | hl
          · exact hpt he
          · exact hin hl
        rw [if_neg hin, if_neg hnin']

/-! ## Per-operation characterisations -/

/-- ids are preserved by the pre-signed outcome. -/
theorem schedulerSignedOutcome_id (cfg : Config) (env : Env) (accts : List Account)
    (t q : Post) : (schedulerSignedOutcome cfg env accts t q).id = q.id := by
  unfold schedulerSignedOutcome
  cases publishPreSignedEvent cfg env accts t with
  | error msg => rfl
  | ok eventId =>
    cases eventId with
    | none => rfl
    | some s =>
      by_cases hs : s = ""
      · simp only [if_pos hs]
        rfl
      · simp only [if_neg hs]
        rfl

/-- The pre-signed outcome ends in `published` or `failed`. -/
theorem schedulerSignedOutcome_status (cfg : Config) (env : Env) (accts : List Account)
    (t q : Post) :
    (schedulerSignedOutcome cfg env accts t q).status = .published ∨
    (schedulerSignedOutcome cfg env accts t q).status = .failed := by
  unfold schedulerSignedOutcome
  cases publishPreSignedEvent cfg env accts t with
  | error msg => right; rfl
  | ok eventId =>
    cases eventId with
    | none => left; rfl
    | some s =>
      by_cases hs : s = ""
      · simp only [if_pos hs]
        left; rfl
      · simp only [if_neg hs]
        left; rfl

/-- ids are preserved by the legacy outcome. -/
theorem legacyOutcome_id (cfg : Config) (env : Env) (accts : List Account)
    (t q : Post) : (legacyOutcome cfg env accts t q).id = q.id := by
  unfold legacyOutcome
  cases publishToNostrResolved cfg env accts (some t) t.content t.api_endpoint true with
  | ok _ => rfl
  | error msg => rfl

/-- The legacy outcome ends in `published` or `failed`. -/
theorem legacyOutcome_status (cfg : Config) (env : Env) (accts : List Account)
    (t q : Post) :
    (legacyOutcome cfg env accts t q).status = .published ∨
    (legacyOutcome cfg env accts t q).status = .failed := by
  unfold legacyOutcome
  cases publishToNostrResolved cfg env accts (some t) t.content t.api_endpoint true with
  | ok _ => left; rfl
  | error msg => right; rfl

/-- ids are preserved by an individual signing attempt. -/
theorem signingAttemptF_id (cfg : Config) (env : Env) (privhex : String)
    (t q : Post) : (signingAttemptF cfg env privhex t q).id = q.id := by
  unfold signingAttemptF
  cases signOnePost cfg env privhex (cfg.powBits.getD 20) t with
  | ok ev => rfl
  | error e => rfl

/-- An individual signing attempt ends in `signed` or `failed`. -/
theorem signingAttemptF_status (cfg : Config) (env : Env) (privhex : String)
    (t q : Post) :
    (signingAttemptF cfg env privhex t q).status = .signed ∨
    (signingAttemptF cfg env privhex t q).status = .failed := by
  unfold signingAttemptF
  cases signOnePost cfg env privhex (cfg.powBits.getD 20) t with
  | ok ev => left; rfl
  | error e => right; rfl

/-- ids are preserved by the signing-queue outcome. -/
theorem signingQueuePostOutcome_id (cfg : Config) (env : Env) (accts : List Account)
    (t q : Post) : (signingQueuePostOutcome cfg env accts t q).id = q.id := by
  unfold signingQueuePostOutcome
  cases resolveAccountKey env accts (t.account_id.getD 1) with
  | error e => rfl
  | ok privhex => exact signingAttemptF_id cfg env privhex t q

/-- The signing-queue outcome ends in `signed` or `failed`. -/
theorem signingQueuePostOutcome_status (cfg : Config) (env : Env) (accts : List Account)
    (t q : Post) :
    (signingQueuePostOutcome cfg env accts t q).status = .signed ∨
    (signingQueuePostOutcome cfg env accts t q).status = .failed := by
  unfold signingQueuePostOutcome
  cases resolveAccountKey env accts (t.account_id.getD 1) with
  | error e => right; rfl
  | ok privhex => exact signingAttemptF_status cfg env privhex t q

/-- A pre-signed-loop iteration is an id-keyed update of its post. -/
theorem processSignedPost_step (cfg : Config) (env : Env) :
    ∀ (db : Db) (t : Post), UniqueIds db.posts → t ∈ db.posts →
      processSignedPost cfg env db t
        = { posts := setPost db.posts t.id (schedulerSignedOutcome cfg env db.accounts t),
            accounts := db.accounts } := by
  intro db t _ _
  unfold processSignedPost schedulerSignedOutcome
  cases publishPreSignedEvent cfg env db.accounts t with
  | error msg => rfl
  | ok eventId =>
    cases eventId with
    | none => rfl
    | some s =>
      by_cases hs : s = ""
      · simp only [if_pos hs]
        rfl
      · simp only [if_neg hs]
        unfold Db.updatePostEventDetails Db.markAsPublished
        show ({ posts := setPost (setPost db.posts t.id (markAsPublishedF cfg.now)) t.id
                  (updateEventDetailsF s), accounts := db.accounts } : Db) = _
        congr 1
        exact setPost_setPost _ _ _ _ (fun p => rfl)

/-- With the post already in hand, the legacy dispatch is its resolved
form. -/
theorem publishToNostr_of_getPost (cfg : Config) (env : Env) (db : Db)
    (content : String) (ep : Option String) (t : Post)
    (h : db.getPost t.id = some t) :
    publishToNostr cfg env db content ep (some t.id)
      = publishToNostrResolved cfg env db.accounts (some t) content ep true := by
  unfold publishToNostr
  have hb : (some t.id).bind db.getPost = some t := by simpa using h
  rw [hb]
  rfl

/-- A legacy-loop iteration is an id-keyed update of its post. -/
theorem processLegacyPost_step (cfg : Config) (env : Env) :
    ∀ (db : Db) (t : Post), UniqueIds db.posts → t ∈ db.posts →
      processLegacyPost cfg env db t
        = { posts := setPost db.posts t.id (legacyOutcome cfg env db.accounts t),
            accounts := db.accounts } := by
  intro db t huniq hmem
  have hget : db.getPost t.id = some t := find_by_id_of_mem huniq hmem
  unfold processLegacyPost
  rw [publishToNostr_of_getPost cfg env db t.content t.api_endpoint t hget]
  unfold legacyOutcome
  cases publishToNostrResolved cfg env db.accounts (some t) t.content t.api_endpoint true with
  | ok _ => rfl
  | error msg => rfl

/-- Filtering preserves the unique-id invariant of the fetched list. -/
theorem uniqueIds_filter {ps : List Post} (h : UniqueIds ps) (P : Post → Bool) :
    (idsOf (ps.filter P)).Nodup :=
  List.Nodup.sublist (List.Sublist.map Post.id (List.filter_sublist ps)) h

/-- An id-preserving pointwise map keeps the unique-id invariant. -/
theorem uniqueIds_map_ids {ps : List Post} (f : Post → Post)
    (hf : ∀ q ∈ ps, (f q).id = q.id) (h : UniqueIds ps) : UniqueIds (ps.map f) := by
  unfold UniqueIds idsOf
  rw [List.map_map]
  have he : ps.map (Post.id ∘ f) = ps.map Post.id :=
    List.map_congr_left (fun q hq => hf q hq)
  rw [he]
  exact h

/-- Two ifs agree when their conditions are equivalent and their arms
agree. -/
theorem ite_eq_of_iff {c d : Prop} [Decidable c] [Decidable d] {A : Type}
    (a a' b b' : A) (h : c ↔ d) (ha : a = a') (hb : b = b') :
    (if c then a else b) = (if d then a' else b') := by
  by_cases hc : c
  · rw [if_pos hc, if_pos (h.mp hc), ha]
  · rw [if_neg hc, if_neg (fun hd => hc (h.mpr hd)), hb]

/-- A full scheduler pass is two pointwise stages: the pre-signed loop
over due `signed` posts, then the legacy loop over due `pending`
posts. -/
theorem checkAndPublishPosts_char (cfg : Config) (env : Env) (db : Db)
    (huniq : UniqueIds db.posts) :
    checkAndPublishPosts cfg env db
      = { posts := List.map
            (fun q => if q.status = .pending ∧ q.scheduled_for ≤ cfg.now
              then legacyOutcome cfg env db.accounts q q else q)
            (List.map
              (fun q => if q.status = .signed ∧ q.scheduled_for ≤ cfg.now
                then schedulerSignedOutcome cfg env db.accounts q q else q)
              db.posts),
          accounts := db.accounts } := by
  set m1 : List Post := List.map
      (fun q => if q.status = .signed ∧ q.scheduled_for ≤ cfg.now
        then schedulerSignedOutcome cfg env db.accounts q q else q)
      db.posts with hm1
  have hids1 : ∀ q ∈ db.posts,
      ((fun q => if q.status = .signed ∧ q.scheduled_for ≤ cfg.now
        then schedulerSignedOutcome cfg env db.accounts q q else q) q).id = q.id := by
    intro q _
    show (if q.status = .signed ∧ q.scheduled_for ≤ cfg.now
        then schedulerSignedOutcome cfg env db.accounts q q else q).id = q.id
    by_cases hc : q.status = .signed ∧ q.scheduled_for ≤ cfg.now
    · rw [if_pos hc]
      exact schedulerSignedOutcome_id cfg env db.accounts q q
    · rw [if_neg hc]
  have huniq1 : UniqueIds m1 := uniqueIds_map_ids _ hids1 huniq
  have hstage1 : (db.getPendingSignedPosts cfg.now).foldl (processSignedPost cfg env) db
      = ({ posts := m1, accounts := db.accounts } : Db) := by
    rw [foldl_step_char (processSignedPost cfg env)
      (fun accts t q => schedulerSignedOutcome cfg env accts t q)
      (fun accts t q => schedulerSignedOutcome_id cfg env accts t q)
      (processSignedPost_step cfg env)
      (db.getPendingSignedPosts cfg.now) db
      (uniqueIds_filter huniq _) huniq
      (fun t ht => List.mem_of_mem_filter ht)]
    congr 1
    apply List.map_congr_left
    intro q hq
    exact ite_eq_of_iff _ _ _ _
      ((mem_ids_filter_iff huniq
        (fun p => decide (p.status = .signed ∧ p.scheduled_for ≤ cfg.now)) hq).trans
        decide_eq_true_iff) rfl rfl
  have hstage2 : (Db.getPendingPosts ({ posts := m1, accounts := db.accounts } : Db)
        cfg.now).foldl (processLegacyPost cfg env)
        ({ posts := m1, accounts := db.accounts } : Db)
      = ({ posts := List.map
            (fun q => if q.status = .pending ∧ q.scheduled_for ≤ cfg.now
              then legacyOutcome cfg env db.accounts q q else q) m1,
           accounts := db.accounts } : Db) := by
    rw [foldl_step_char (processLegacyPost cfg env)
      (fun accts t q => legacyOutcome cfg env accts t q)
      (fun accts t q => legacyOutcome_id cfg env accts t q)
      (processLegacyPost_step cfg env)
      (Db.getPendingPosts ({ posts := m1, accounts := db.accounts } : Db) cfg.now)
      ({ posts := m1, accounts := db.accounts } : Db)
      (uniqueIds_filter huniq1 _) huniq1
      (fun t ht => List.mem_of_mem_filter ht)]
    congr 1
    apply List.map_congr_left
    intro q hq
    exact ite_eq_of_iff _ _ _ _
      ((mem_ids_filter_iff huniq1
        (fun p => decide (p.status = .pending ∧ p.scheduled_for ≤ cfg.now)) hq).trans
        decide_eq_true_iff) rfl rfl
  show (Db.getPendingPosts
        ((db.getPendingSignedPosts cfg.now).foldl (processSignedPost cfg env) db)
        cfg.now).foldl (processLegacyPost cfg env)
      ((db.getPendingSignedPosts cfg.now).foldl (processSignedPost cfg env) db) = _
  rw [hstage1, hstage2]

/-! ## Status evolution -/

/-- Transitivity of the pipeline reachability relation. -/
theorem reaches_trans {a b c : Status} (h1 : Reaches a b) (h2 : Reaches b c) :
    Reaches a c := by
  induction h1 with
  | refl => exact h2
  | head s _ ih => exact .head s (ih h2)

/-- A single pipeline step reaches. -/
theorem reaches_one {a b : Status} (h : StatusStep a b) : Reaches a b :=
  .head h (.refl b)

/-- Nothing is reachable out of `published`. -/
theorem reaches_published_fixed (t : Status) (h : Reaches .published t) :
    t = .published := by
  cases h with
  | refl => rfl
  | head s _ => cases s

/-- Nothing is reachable out of `failed`. -/
theorem reaches_failed_fixed (t : Status) (h : Reaches .failed t) : t = .failed := by
  cases h with
  | refl => rfl
  | head s _ => cases s

/-- Pointwise evolution is reflexive. -/
theorem statusEvolves_refl (ps : List Post) : StatusEvolves ps ps :=
  ⟨rfl, fun _ h _ => ⟨rfl, .refl _⟩⟩

/-- Pointwise evolution composes. -/
theorem statusEvolves_trans {a b c : List Post}
    (h1 : StatusEvolves a b) (h2 : StatusEvolves b c) : StatusEvolves a c := by
  obtain ⟨hl1, hp1⟩ := h1
  obtain ⟨hl2, hp2⟩ := h2
  refine ⟨hl2.trans hl1, ?_⟩
  intro i h h'
  have hb : i < b.length := by omega
  obtain ⟨hid1, hst1⟩ := hp1 i h hb
  obtain ⟨hid2, hst2⟩ := hp2 i hb h'
  exact ⟨hid2.trans hid1, reaches_trans hst1 hst2⟩

/-- A pointwise id-preserving, status-advancing map evolves the store. -/
theorem statusEvolves_map (ps : List Post) (f : Post → Post)
    (hid : ∀ q ∈ ps, (f q).id = q.id)
    (hst : ∀ q ∈ ps, Reaches q.status (f q).status) :
    StatusEvolves ps (ps.map f) := by
  refine ⟨List.length_map ps f, ?_⟩
  intro i h h'
  have hmem : ps.get ⟨i, h⟩ ∈ ps := List.get_mem ps i h
  have hg : (ps.map f).get ⟨i, h'⟩ = f (ps.get ⟨i, h⟩) := by
    simp [List.get_map]
  rw [hg]
  exact ⟨hid _ hmem, hst _ hmem⟩

/-- An id-keyed single update with an advancing status evolves the
store. -/
theorem statusEvolves_setPost (ps : List Post) (h : UniqueIds ps) (t : Post)
    (ht : t ∈ ps) (f : Post → Post) (hid : ∀ q, (f q).id = q.id)
    (hst : Reaches t.status (f t).status) :
    StatusEvolves ps (setPost ps t.id f) := by
  unfold setPost
  apply statusEvolves_map
  · intro q _
    by_cases hc : q.id = t.id
    · rw [if_pos hc]
      exact hid q
    · rw [if_neg hc]
  · intro q hq
    by_cases hc : q.id = t.id
    · have hqt : q = t := mem_id_inj h hq ht hc
      rw [if_pos hc, hqt]
      exact hst
    · rw [if_neg hc]
      exact .refl _

/-- A scheduler pass only advances statuses along the pipeline. -/
theorem checkAndPublish_evolves (cfg : Config) (env : Env) (db : Db)
    (huniq : UniqueIds db.posts) :
    StatusEvolves db.posts (checkAndPublishPosts cfg env db).posts := by
  rw [checkAndPublishPosts_char cfg env db huniq]
  refine statusEvolves_trans (b := List.map
      (fun q => if q.status = .signed ∧ q.scheduled_for ≤ cfg.now
        then schedulerSignedOutcome cfg env db.accounts q q else q) db.posts)
    ?_ ?_
  · apply statusEvolves_map
    · intro q _
      by_cases hc : q.status = .signed ∧ q.scheduled_for ≤ cfg.now
      · rw [if_pos hc]
        exact schedulerSignedOutcome_id cfg env db.accounts q q
      · rw [if_neg hc]
    · intro q _
      by_cases hc : q.status = .signed ∧ q.scheduled_for ≤ cfg.now
      · rw [if_pos hc, hc.1]
        rcases schedulerSignedOutcome_status cfg env db.accounts q q with h | h
        · rw [h]
          exact reaches_one .signed_published
        · rw [h]
          exact reaches_one .signed_failed
      · rw [if_neg hc]
        exact .refl _
  · apply statusEvolves_map
    · intro q _
      by_cases hc : q.status = .pending ∧ q.scheduled_for ≤ cfg.now
      · rw [if_pos hc]
        exact legacyOutcome_id cfg env db.accounts q q
      · rw [if_neg hc]
    · intro q _
      by_cases hc : q.status = .pending ∧ q.scheduled_for ≤ cfg.now
      · rw [if_pos hc, hc.1]
        rcases legacyOutcome_status cfg env db.accounts q q with h | h
        · rw [h]
          exact reaches_one .pending_published
        · rw [h]
          exact reaches_one .pending_failed
      · rw [if_neg hc]
        exact .refl _

/-- A manual `publishNow` call only advances statuses along the
pipeline. -/
theorem publishNow_evolves (cfg : Config) (env : Env) (db : Db) (postId : Nat)
    (huniq : UniqueIds db.posts) :
    StatusEvolves db.posts (publishNowRun cfg env db postId).2.posts := by
  cases hget : db.getPost postId with
  | none =>
    have hrun : publishNowRun cfg env db postId
        = (.error ("Post " ++ toString postId ++ " not found"), db) := by
      unfold publishNowRun
      rw [hget]
    rw [hrun]
    exact statusEvolves_refl _
  | some post =>
    have hmem : post ∈ db.posts := List.mem_of_find?_eq_some hget
    by_cases hp : post.status = .pending
    · have hne : ¬ (post.status ≠ .pending) := by simp [hp]
      have hrun : publishNowRun cfg env db postId
          = (match publishToNostr cfg env db post.content post.api_endpoint (some post.id) with
             | .ok _ => (.ok (), db.markAsPublished cfg.now post.id)
             | .error e => (.error e, db.markAsFailed post.id e)) := by
        unfold publishNowRun
        rw [hget]
        exact if_neg hne
      rw [hrun]
      cases publishToNostr cfg env db post.content post.api_endpoint (some post.id) with
      | ok u =>
        show StatusEvolves db.posts (db.markAsPublished cfg.now post.id).posts
        unfold Db.markAsPublished
        apply statusEvolves_setPost db.posts huniq post hmem (markAsPublishedF cfg.now)
          (fun q => rfl)
        rw [hp]
        exact reaches_one .pending_published
      | error e =>
        show StatusEvolves db.posts (db.markAsFailed post.id e).posts
        unfold Db.markAsFailed
        apply statusEvolves_setPost db.posts huniq post hmem (markAsFailedF e)
          (fun q => rfl)
        rw [hp]
        exact reaches_one .pending_failed
    · have hne : post.status ≠ .pending := hp
      have hrun : publishNowRun cfg env db postId
          = (.error ("Post " ++ toString postId ++ " is not pending (status: "
              ++ statusText post.status ++ ")"), db) := by
        unfold publishNowRun
        rw [hget]
        exact if_pos hne
      rw [hrun]
      exact statusEvolves_refl _

/-! ## Signing queue: grouping machinery -/

/-- Inserting a post into its group permutes to appending it to the
flattened groups. -/
theorem insertGrouped_flatten (acc : List (Nat × List Post)) (aid : Nat) (p : Post) :
    (((insertGrouped acc aid p).map Prod.snd).flatten).Perm
      (((acc.map Prod.snd).flatten) ++ [p]) := by
  induction acc with
  | nil => simp [insertGrouped]
  | cons g rest ih =>
    obtain ⟨k, ps⟩ := g
    unfold insertGrouped
    by_cases hk : k = aid
    · rw [if_pos hk]
      show ((ps ++ [p]) ++ (rest.map Prod.snd).flatten).Perm
        ((ps ++ (rest.map Prod.snd).flatten) ++ [p])
      rw [List.append_assoc, List.append_assoc]
      exact List.Perm.append_left ps (List.perm_append_comm)
    · rw [if_neg hk]
      show (ps ++ ((insertGrouped rest aid p).map Prod.snd).flatten).Perm
        ((ps ++ (rest.map Prod.snd).flatten) ++ [p])
      rw [List.append_assoc]
      exact List.Perm.append_left ps ih

/-- Grouping by account permutes the fetched list. -/
theorem group_flatten_perm_aux :
    ∀ (l : List Post) (acc : List (Nat × List Post)),
      (((l.foldl (fun a p => insertGrouped a (p.account_id.getD 1) p) acc).map
          Prod.snd).flatten).Perm (((acc.map Prod.snd).flatten) ++ l) := by
  intro l
  induction l with
  | nil => intro acc; simp
  | cons p l ih =>
    intro acc
    rw [List.foldl_cons]
    have h1 := ih (insertGrouped acc (p.account_id.getD 1) p)
    have h2 := (insertGrouped_flatten acc (p.account_id.getD 1) p).append_right l
    have h3 := h1.trans h2
    have h4 : (((acc.map Prod.snd).flatten) ++ [p]) ++ l
        = ((acc.map Prod.snd).flatten) ++ (p :: l) := by
      rw [List.append_assoc]
      rfl
    rw [h4] at h3
    exact h3

/-- Grouping by account permutes the fetched list (top level). -/
theorem group_flatten_perm (l : List Post) :
    ((((groupPostsByAccount l).map Prod.snd).flatten)).Perm l := by
  have h := group_flatten_perm_aux l []
  simpa [groupPostsByAccount] using h

/-- Every post of a group carries the group's account key, after one
insertion. -/
theorem insertGrouped_key (acc : List (Nat × List Post)) (aid : Nat) (p : Post)
    (hacc : ∀ g ∈ acc, ∀ t ∈ g.2, t.account_id.getD 1 = g.1)
    (hp : p.account_id.getD 1 = aid) :
    ∀ g ∈ insertGrouped acc aid p, ∀ t ∈ g.2, t.account_id.getD 1 = g.1 := by
  induction acc with
  | nil =>
    intro g hg t htg
    rcases List.mem_singleton.mp hg with hg1
    rw [hg1] at htg ⊢
    rcases List.mem_singleton.mp htg with ht1
    rw [ht1]
    exact hp
  | cons g0 rest ih =>
    obtain ⟨k, ps⟩ := g0
    unfold insertGrouped
    by_cases hk : k = aid
    · rw [if_pos hk]
      intro g hg t htg
      rcases List.mem_cons.mp hg with hg1 | hgr
      · rw [hg1] at htg ⊢
        rcases List.mem_append.mp htg with htp | htp
        · exact hacc (k, ps) (List.mem_cons_self _ _) t htp
        · rcases List.mem_singleton.mp htp with ht1
          rw [ht1, hk]
          exact hp
      · exact hacc g (List.mem_cons_of_mem _ hgr) t htg
    · rw [if_neg hk]
      intro g hg t htg
      rcases List.mem_cons.mp hg with hg1 | hgr
      · rw [hg1] at htg ⊢
        exact hacc (k, ps) (List.mem_cons_self _ _) t htg
      · exact ih (fun g' hg' => hacc g' (List.mem_cons_of_mem _ hg')) g hgr t htg

/-- Every post of a group carries the group's account key. -/
theorem group_key (l : List Post) :
    ∀ g ∈ groupPostsByAccount l, ∀ t ∈ g.2, t.account_id.getD 1 = g.1 := by
  have haux : ∀ (l' : List Post) (acc : List (Nat × List Post)),
      (∀ g ∈ acc, ∀ t ∈ g.2, t.account_id.getD 1 = g.1) →
      ∀ g ∈ l'.foldl (fun a p => insertGrouped a (p.account_id.getD 1) p) acc,
        ∀ t ∈ g.2, t.account_id.getD 1 = g.1 := by
    intro l'
    induction l' with
    | nil => intro acc hacc; exact hacc
    | cons p l' ih =>
      intro acc hacc
      rw [List.foldl_cons]
      exact ih _ (insertGrouped_key acc _ p hacc rfl)
  exact haux l [] (fun g hg => absurd hg (List.not_mem_nil g))

/-- One account batch is the pointwise map of the signing-queue outcome
over the batch's ids. -/
theorem processAccountPosts_char (cfg : Config) (env : Env) (aid : Nat) (db : Db)
    (posts : List Post) (huniq : UniqueIds db.posts)
    (hnodup : (idsOf posts).Nodup) (hmem : ∀ t ∈ posts, t ∈ db.posts)
    (hkey : ∀ t ∈ posts, t.account_id.getD 1 = aid) :
    processAccountPosts cfg env db aid posts
      = { posts := db.posts.map (fun q =>
            if q.id ∈ idsOf posts
            then signingQueuePostOutcome cfg env db.accounts q q else q),
          accounts := db.accounts } := by
  unfold processAccountPosts
  cases hres : resolveAccountKey env db.accounts aid with
  | error e =>
    show posts.foldl (fun d p => d.markAsFailed p.id ("Signing failed: " ++ e)) db = _
    rw [foldl_step_char (fun d p => d.markAsFailed p.id ("Signing failed: " ++ e))
      (fun _ _ q => markAsFailedF ("Signing failed: " ++ e) q)
      (fun _ _ _ => rfl) (fun _ _ _ _ => rfl)
      posts db hnodup huniq hmem]
    congr 1
    apply List.map_congr_left
    intro q hq
    by_cases hin : q.id ∈ idsOf posts
    · rw [if_pos hin, if_pos hin]
      obtain ⟨t, ht, htq⟩ := List.mem_map.mp hin
      have heq : t = q := mem_id_inj huniq (hmem t ht) hq htq
      have hkq : q.account_id.getD 1 = aid := heq ▸ hkey t ht
      unfold signingQueuePostOutcome
      rw [hkq, hres]
    · rw [if_neg hin, if_neg hin]
  | ok privhex =>
    show posts.foldl (processOnePost cfg env privhex (cfg.powBits.getD 20)) db = _
    have hstep : ∀ (d : Db) (t : Post), UniqueIds d.posts → t ∈ d.posts →
        processOnePost cfg env privhex (cfg.powBits.getD 20) d t
          = { posts := setPost d.posts t.id (signingAttemptF cfg env privhex t),
              accounts := d.accounts } := by
      intro d t _ _
      unfold processOnePost signingAttemptF Db.markAsSigning
      cases signOnePost cfg env privhex (cfg.powBits.getD 20) t with
      | ok ev =>
        unfold Db.markAsSigned
        show ({ posts := setPost (setPost d.posts t.id markAsSigningF) t.id
                  (markAsSignedF ev), accounts := d.accounts } : Db) = _
        congr 1
        exact setPost_setPost _ _ _ _ (fun p => rfl)
      | error e2 =>
        unfold Db.markAsFailed
        show ({ posts := setPost (setPost d.posts t.id markAsSigningF) t.id
                  (markAsFailedF ("Signing failed: " ++ e2)),
                accounts := d.accounts } : Db) = _
        congr 1
        exact setPost_setPost _ _ _ _ (fun p => rfl)
    rw [foldl_step_char (processOnePost cfg env privhex (cfg.powBits.getD 20))
      (fun _ t q => signingAttemptF cfg env privhex t q)
      (fun _ t q => signingAttemptF_id cfg env privhex t q)
      hstep posts db hnodup huniq hmem]
    congr 1
    apply List.map_congr_left
    intro q hq
    by_cases hin : q.id ∈ idsOf posts
    · rw [if_pos hin, if_pos hin]
      obtain ⟨t, ht, htq⟩ := List.mem_map.mp hin
      have heq : t = q := mem_id_inj huniq (hmem t ht) hq htq
      have hkq : q.account_id.getD 1 = aid := heq ▸ hkey t ht
      unfold signingQueuePostOutcome
      rw [hkq, hres]
    · rw [if_neg hin, if_neg hin]

/-- The fold over the account groups is the pointwise map of the
signing-queue outcome over all grouped ids. -/
theorem groups_fold_char (cfg : Config) (env : Env) :
    ∀ (gs : List (Nat × List Post)) (db : Db),
      UniqueIds db.posts →
      (idsOf ((gs.map Prod.snd).flatten)).Nodup →
      (∀ t ∈ (gs.map Prod.snd).flatten, t ∈ db.posts) →
      (∀ g ∈ gs, ∀ t ∈ g.2, t.account_id.getD 1 = g.1) →
      gs.foldl (fun d g => processAccountPosts cfg env d g.1 g.2) db
        = { posts := db.posts.map (fun q =>
              if q.id ∈ idsOf ((gs.map Prod.snd).flatten)
              then signingQueuePostOutcome cfg env db.accounts q q else q),
            accounts := db.accounts } := by
  intro gs
  induction gs with
  | nil =>
    intro db _ _ _ _
    simp [idsOf]
  | cons g gs ih =>
    intro db huniq hnodup hmem hkey
    rw [List.foldl_cons]
    have hsplit : idsOf (((g :: gs).map Prod.snd).flatten)
        = idsOf g.2 ++ idsOf ((gs.map Prod.snd).flatten) := by
      show idsOf (g.2 ++ (gs.map Prod.snd).flatten) = _
      unfold idsOf
      exact List.map_append Post.id _ _
    have hnd3 := List.nodup_append.mp (by rw [← hsplit]; exact hnodup)
    have hndA : (idsOf g.2).Nodup := hnd3.1
    have hndB : (idsOf ((gs.map Prod.snd).flatten)).Nodup := hnd3.2.1
    have hdisj := hnd3.2.2
    have hmemA : ∀ t ∈ g.2, t ∈ db.posts := by
      intro t ht
      exact hmem t (by
        show t ∈ g.2 ++ (gs.map Prod.snd).flatten
        exact List.mem_append.mpr (Or.inl ht))
    have hmemBsrc : ∀ t ∈ (gs.map Prod.snd).flatten, t ∈ db.posts := by
      intro t ht
      exact hmem t (by
        show t ∈ g.2 ++ (gs.map Prod.snd).flatten
        exact List.mem_append.mpr (Or.inr ht))
    rw [processAccountPosts_char cfg env g.1 db g.2 huniq hndA hmemA
      (hkey g (List.mem_cons_self g gs))]
    have hids1 : ∀ q ∈ db.posts,
        ((fun q => if q.id ∈ idsOf g.2
          then signingQueuePostOutcome cfg env db.accounts q q else q) q).id = q.id := by
      intro q _
      show (if q.id ∈ idsOf g.2
          then signingQueuePostOutcome cfg env db.accounts q q else q).id = q.id
      by_cases hc : q.id ∈ idsOf g.2
      · rw [if_pos hc]
        exact signingQueuePostOutcome_id cfg env db.accounts q q
      · rw [if_neg hc]
    have huniq1 : UniqueIds (db.posts.map (fun q =>
        if q.id ∈ idsOf g.2
        then signingQueuePostOutcome cfg env db.accounts q q else q)) :=
      uniqueIds_map_ids _ hids1 huniq
    have hmemB : ∀ t ∈ (gs.map Prod.snd).flatten,
        t ∈ db.posts.map (fun q =>
          if q.id ∈ idsOf g.2
          then signingQueuePostOutcome cfg env db.accounts q q else q) := by
      intro t ht
      have ht0 : t ∈ db.posts := hmemBsrc t ht
      have htid : t.id ∈ idsOf ((gs.map Prod.snd).flatten) :=
        List.mem_map_of_mem Post.id ht
      have hnin : ¬ t.id ∈ idsOf g.2 := fun hc =>
        (List.disjoint_right.mp hdisj htid) hc
      have himg : (if t.id ∈ idsOf g.2
          then signingQueuePostOutcome cfg env db.accounts t t else t) = t := if_neg hnin
      rw [← himg]
      exact List.mem_map_of_mem _ ht0
    have hkeyB : ∀ g' ∈ gs, ∀ t ∈ g'.2, t.account_id.getD 1 = g'.1 :=
      fun g' hg' => hkey g' (List.mem_cons_of_mem g hg')
    rw [ih ({ posts := db.posts.map (fun q =>
                  if q.id ∈ idsOf g.2
                  then signingQueuePostOutcome cfg env db.accounts q q else q),
              accounts := db.accounts } : Db) huniq1 hndB hmemB hkeyB]
    congr 1
    rw [List.map_map]
    apply List.map_congr_left
    intro q hq
    simp only [Function.comp_apply]
    by_cases hinA : q.id ∈ idsOf g.2
    · rw [if_pos hinA]
      have hidq : (signingQueuePostOutcome cfg env db.accounts q q).id = q.id :=
        signingQueuePostOutcome_id cfg env db.accounts q q
      have hninB : ¬ (signingQueuePostOutcome cfg env db.accounts q q).id
          ∈ idsOf ((gs.map Prod.snd).flatten) := by
        rw [hidq]
        exact fun hc => (List.disjoint_left.mp hdisj hinA) hc
      rw [if_neg hninB]
      have hin : q.id ∈ idsOf (((g :: gs).map Prod.snd).flatten) := by
        rw [hsplit]
        exact List.mem_append.mpr (Or.inl hinA)
      rw [if_pos hin]
    · rw [if_neg hinA]
      by_cases hinB : q.id ∈ idsOf ((gs.map Prod.snd).flatten)
      · have hin : q.id ∈ idsOf (((g :: gs).map Prod.snd).flatten) := by
          rw [hsplit]
          exact List.mem_append.mpr (Or.inr hinB)
        rw [if_pos hinB, if_pos hin]
      · have hnin : ¬ q.id ∈ idsOf (((g :: gs).map Prod.snd).flatten) := by
          rw [hsplit]
          intro hc
          rcases List.mem_append.mp hc with hc1 | hc2
          · exact hinA hc1
          · exact hinB hc2
        rw [if_neg hinB, if_neg hnin]

/-- One signing-queue pass (busy flag already taken) is the pointwise
map of the signing outcome over the `pending` posts. -/
theorem processQueueGo_char (cfg : Config) (env : Env) (db : Db)
    (huniq : UniqueIds db.posts) :
    processQueueGo cfg env db
      = { posts := db.posts.map (fun q =>
            if q.status = .pending
            then signingQueuePostOutcome cfg env db.accounts q q else q),
          accounts := db.accounts } := by
  have hperm : ((((groupPostsByAccount db.getPostsReadyForSigning).map
      Prod.snd).flatten)).Perm db.getPostsReadyForSigning :=
    group_flatten_perm _
  have hpermIds : (idsOf (((groupPostsByAccount db.getPostsReadyForSigning).map
      Prod.snd).flatten)).Perm (idsOf db.getPostsReadyForSigning) :=
    hperm.map Post.id
  have hndFetch : (idsOf db.getPostsReadyForSigning).Nodup :=
    uniqueIds_filter huniq _
  have hndFlat : (idsOf (((groupPostsByAccount db.getPostsReadyForSigning).map
      Prod.snd).flatten)).Nodup := hpermIds.nodup_iff.mpr hndFetch
  have hmem : ∀ t ∈ ((groupPostsByAccount db.getPostsReadyForSigning).map
      Prod.snd).flatten, t ∈ db.posts := by
    intro t ht
    have ht1 : t ∈ db.getPostsReadyForSigning := hperm.mem_iff.mp ht
    exact List.mem_of_mem_filter ht1
  have hkey := group_key db.getPostsReadyForSigning
  show (groupPostsByAccount db.getPostsReadyForSigning).foldl
      (fun d g => processAccountPosts cfg env d g.1 g.2) db = _
  rw [groups_fold_char cfg env (groupPostsByAccount db.getPostsReadyForSigning) db
      huniq hndFlat hmem hkey]
  congr 1
  apply List.map_congr_left
  intro q hq
  exact ite_eq_of_iff _ _ _ _
    (hpermIds.mem_iff.trans
      ((mem_ids_filter_iff huniq (fun p => decide (p.status = .pending)) hq).trans
        decide_eq_true_iff)) rfl rfl

/-- A signing-queue invocation only advances statuses along the
pipeline. -/
theorem processQueue_evolves (cfg : Config) (env : Env) (st : QueueState)
    (huniq : UniqueIds st.db.posts) :
    StatusEvolves st.db.posts (processQueue cfg env st).db.posts := by
  unfold processQueue
  by_cases hb : st.isProcessing
  · rw [if_pos hb]
    exact statusEvolves_refl _
  · rw [if_neg hb]
    show StatusEvolves st.db.posts (processQueueGo cfg env st.db).posts
    rw [processQueueGo_char cfg env st.db huniq]
    apply statusEvolves_map
    · intro q _
      by_cases hc : q.status = .pending
      · rw [if_pos hc]
        exact signingQueuePostOutcome_id cfg env st.db.accounts q q
      · rw [if_neg hc]
    · intro q _
      by_cases hc : q.status = .pending
      · rw [if_pos hc, hc]
        rcases signingQueuePostOutcome_status cfg env st.db.accounts q q with h | h
        · rw [h]
          exact .head .pending_signing (reaches_one .signing_signed)
        · rw [h]
          exact reaches_one .pending_failed
      · rw [if_neg hc]
        exact .refl _

/-- C2: every pipeline operation — a scheduler pass, a signing-queue
invocation and a manual publishNow — preserves ids and only moves each
post's status along `pending → signing → signed → published|failed` or
the legacy `pending → published|failed` path, and the terminal statuses
`published` and `failed` admit no outgoing transition. -/
theorem c2_status_transitions_follow_pipeline :
    (∀ (cfg : Config) (env : Env) (db : Db), UniqueIds db.posts →
      StatusEvolves db.posts (checkAndPublishPosts cfg env db).posts) ∧
    (∀ (cfg : Config) (env : Env) (st : QueueState), UniqueIds st.db.posts →
      StatusEvolves st.db.posts (processQueue cfg env st).db.posts) ∧
    (∀ (cfg : Config) (env : Env) (db : Db) (postId : Nat), UniqueIds db.posts →
      StatusEvolves db.posts (publishNowRun cfg env db postId).2.posts) ∧
    (∀ t, Reaches .published t → t = .published) ∧
    (∀ t, Reaches .failed t → t = .failed) := by
  refine ⟨?_, ?_, ?_, reaches_published_fixed, reaches_failed_fixed⟩
  · intro cfg env db h
    exact checkAndPublish_evolves cfg env db h
  · intro cfg env st h
    exact processQueue_evolves cfg env st h
  · intro cfg env db postId h
    exact publishNow_evolves cfg env db postId h

theorem c2_witness :
    StatusEvolves dbC1.posts (checkAndPublishPosts demoCfg envC1ok dbC1).posts ∧
    StatusEvolves dbC6.posts
      (processQueue demoCfg demoEnvBase ⟨dbC6, false⟩).db.posts ∧
    StatusEvolves dbC1.posts (publishNowRun demoCfg demoEnvBase dbC1 1).2.posts :=
  ⟨c2_status_transitions_follow_pipeline.1 demoCfg envC1ok dbC1 (by decide),
   c2_status_transitions_follow_pipeline.2.1 demoCfg demoEnvBase ⟨dbC6, false⟩ (by decide),
   c2_status_transitions_follow_pipeline.2.2.1 demoCfg demoEnvBase dbC1 1 (by decide)⟩

/-- C6: account-batch isolation in a signing-queue pass.  When resolving
account `a`'s key fails (account missing or no private key) while
account `b`'s key resolves, a pass maps every fetched `pending` post
pointwise; every post of account `a` ends `failed` with the descriptive
`Signing failed: ...` message and its stored signed payload untouched
(never partially signed), every post of account `b` is processed
normally — individually signed and stored, or individually failed by its
own error only.  A missing account yields the `Account N not found`
message, a present account with no keychain or database key the
`No private key found for account N` message. -/
theorem c6_account_batch_isolation (cfg : Config) (env : Env) (db : Db)
    (a b : Nat) (msgA privB : String)
    (huniq : UniqueIds db.posts)
    (hresA : resolveAccountKey env db.accounts a = .error msgA)
    (hresB : resolveAccountKey env db.accounts b = .ok privB) :
    (processQueueGo cfg env db).posts
      = db.posts.map (fun q =>
          if q.status = .pending
          then signingQueuePostOutcome cfg env db.accounts q q else q) ∧
    (∀ q : Post, q.status = .pending → q.account_id.getD 1 = a →
      signingQueuePostOutcome cfg env db.accounts q q
          = markAsFailedF ("Signing failed: " ++ msgA) q ∧
      (signingQueuePostOutcome cfg env db.accounts q q).status = .failed ∧
      (signingQueuePostOutcome cfg env db.accounts q q).error_message
          = some ("Signing failed: " ++ msgA) ∧
      (signingQueuePostOutcome cfg env db.accounts q q).signed_event
          = q.signed_event) ∧
    (∀ q : Post, q.status = .pending → q.account_id.getD 1 = b →
      signingQueuePostOutcome cfg env db.accounts q q
          = signingAttemptF cfg env privB q q ∧
      ((∃ ev, signOnePost cfg env privB (cfg.powBits.getD 20) q = .ok ev ∧
          signingAttemptF cfg env privB q q = markAsSignedF ev (markAsSigningF q)) ∨
       (∃ e, signOnePost cfg env privB (cfg.powBits.getD 20) q = .error e ∧
          signingAttemptF cfg env privB q q
            = markAsFailedF ("Signing failed: " ++ e) (markAsSigningF q)))) ∧
    (∀ aid, db.accounts.find? (fun x => decide (x.id = aid)) = none →
      resolveAccountKey env db.accounts aid
        = .error ("Account " ++ toString aid ++ " not found")) ∧
    (∀ aid acct, db.accounts.find? (fun x => decide (x.id = aid)) = some acct →
      env.keychain aid = none → acct.nsec = none →
      resolveAccountKey env db.accounts aid
        = .error ("No private key found for account " ++ toString aid)) := by
  refine ⟨congrArg Db.posts (processQueueGo_char cfg env db huniq), ?_, ?_, ?_, ?_⟩
  · intro q _ hacc
    have hout : signingQueuePostOutcome cfg env db.accounts q q
        = markAsFailedF ("Signing failed: " ++ msgA) q := by
      unfold signingQueuePostOutcome
      rw [hacc, hresA]
    exact ⟨hout, by rw [hout]; rfl, by rw [hout]; rfl, by rw [hout]; rfl⟩
  · intro q _ hacc
    have hout : signingQueuePostOutcome cfg env db.accounts q q
        = signingAttemptF cfg env privB q q := by
      unfold signingQueuePostOutcome
      rw [hacc, hresB]
    refine ⟨hout, ?_⟩
    cases hsign : signOnePost cfg env privB (cfg.powBits.getD 20) q with
    | ok ev =>
      exact Or.inl ⟨ev, rfl, by unfold signingAttemptF; rw [hsign]⟩
    | error e =>
      exact Or.inr ⟨e, rfl, by unfold signingAttemptF; rw [hsign]⟩
  · intro aid hfind
    unfold resolveAccountKey
    rw [hfind]
  · intro aid acct hfind hkc hnsec
    unfold resolveAccountKey
    rw [hfind]
    simp [hkc, hnsec, jsTruthy]

theorem c6_witness :
    (processQueueGo demoCfg demoEnvBase dbC6).posts
      = dbC6.posts.map (fun q =>
          if q.status = .pending
          then signingQueuePostOutcome demoCfg demoEnvBase dbC6.accounts q q else q) ∧
    signingQueuePostOutcome demoCfg demoEnvBase dbC6.accounts postA1 postA1
        = markAsFailedF ("Signing failed: " ++ "Account 5 not found") postA1 ∧
    signingQueuePostOutcome demoCfg demoEnvBase dbC6.accounts postB1 postB1
        = signingAttemptF demoCfg demoEnvBase "nsecB" postB1 postB1 := by
  have h := c6_account_batch_isolation demoCfg demoEnvBase dbC6 5 2
      "Account 5 not found" "nsecB" (by decide) rfl rfl
  exact ⟨h.1, (h.2.1 postA1 rfl rfl).1, (h.2.2.1 postB1 rfl rfl).1⟩
